import Mathlib

/-! # CodeShield: file intake, validation and queue management

A shallow embedding of `src/main.js` (the Validator and the Queue Manager) and
theorems about it.

Modelling conventions.

* A JavaScript string is a Lean `String`; `text.length`, `charCodeAt`, `slice`
  and `lastIndexOf` are read through the character list `String.data`.
* A byte buffer (`ArrayBuffer` seen through a `Uint8Array`) is a `List Nat`.
* The browser services whose outcome the code cannot determine are fields of
  `Host`: `String.prototype.toLowerCase`, `Number.prototype.toLocaleString`
  and `crypto.randomUUID` (indexed by the number of identifiers already drawn).
* A file handle carries the outcome of its two content reads: `none` is a
  rejected promise.
* `validateFile` returns, next to the record, the list of content reads it
  started, so that "performs no read" is a statement about the code.
* The queue is explicit state; of the DOM work only the three status lists of
  `renderQueue` and the list the scan button hands on are modelled.
* `addFilesLoop` runs each iteration of the loop of `addFiles` to completion.
  `Page` keeps the invocations suspended at `await validateFile(file)` and lets
  the event loop call a new invocation or resume a suspended one in any order.
-/

namespace CodeShield

/-! ## Constants -/

/-- The constant `ALLOWED_EXTENSIONS`. -/
def ALLOWED_EXTENSIONS : List String := [".py", ".java", ".js", ".cpp"]

/-- The constant `MAX_LINES`. -/
def MAX_LINES : Nat := 10000

/-- The constant `BINARY_CHECK_SIZE`: the first 8 KB. -/
def BINARY_CHECK_SIZE : Nat := 8192

/-- A language descriptor, an entry of `EXTENSION_LANG_MAP`. -/
structure Language where
  name : String
  cssClass : String
  icon : String
deriving DecidableEq, Repr

/-- The constant `EXTENSION_LANG_MAP`, as an association list. -/
def EXTENSION_LANG_MAP : List (String × Language) :=
  [ (".py", ⟨"Python", "lang-python", ""⟩),
    (".java", ⟨"Java", "lang-java", ""⟩),
    (".js", ⟨"JavaScript", "lang-javascript", ""⟩),
    (".cpp", ⟨"C++", "lang-cpp", ""⟩) ]

/-- The constant `STATUS`: the three status values. -/
inductive Status where
  | valid
  | invalid
  | warning
deriving DecidableEq, Repr

/-- Browser services used by the code. -/
structure Host where
  /-- The method `String.prototype.toLowerCase`. -/
  toLowerCase : String → String
  /-- The method `Number.prototype.toLocaleString` on a non-negative integer. -/
  toLocaleString : Nat → String
  /-- The result of the `n`-th call of `crypto.randomUUID()`. -/
  randomUUID : Nat → String

/-! ## Language detector -/

/-- The scan behind `lastIndexOf`: `acc` is the last index seen so far at which
`c` occurs, `i` the index of the head of the remaining characters. -/
def lastIndexOfFrom (c : Char) : List Char → Nat → Int → Int
  | [], _, acc => acc
  | x :: xs, i, acc => lastIndexOfFrom c xs (i + 1) (if x = c then (i : Int) else acc)

/-- The call `s.lastIndexOf(c)` for a one-character search string: the greatest
index at which `c` occurs, `-1` when there is none. -/
def lastIndexOf (s : String) (c : Char) : Int :=
  lastIndexOfFrom c s.data 0 (-1)

/-- The function `getExtension`. -/
def getExtension (H : Host) (filename : String) : String :=
  let idx := lastIndexOf filename '.'
  if idx ≠ -1 then H.toLowerCase (String.mk (filename.data.drop idx.toNat)) else ""

/-- Property lookup `EXTENSION_LANG_MAP[ext]`: `none` is `undefined`. -/
def langLookup (ext : String) : List (String × Language) → Option Language
  | [] => none
  | (k, v) :: rest => if k = ext then some v else langLookup ext rest

/-- The function `detectLanguage`: `none` is `null`. -/
def detectLanguage (H : Host) (filename : String) : Option Language :=
  let ext := getExtension H filename
  match langLookup ext EXTENSION_LANG_MAP with
  | some l => some l
  | none => none

/-! ## Validation engine -/

/-- The loop of `isBinary`: `i` is the loop index and the first argument the
number of iterations left, `checkLen - i`. -/
def isBinaryLoop (view : List Nat) : Nat → Nat → Bool
  | 0, _ => false
  | left + 1, i => if view[i]? = some 0 then true else isBinaryLoop view left (i + 1)

/-- The function `isBinary`: does the buffer hold a null byte among its first
`BINARY_CHECK_SIZE` bytes. -/
def isBinary (buffer : List Nat) : Bool :=
  let view := buffer
  let checkLen := min view.length BINARY_CHECK_SIZE
  isBinaryLoop view checkLen 0

/-- The loop of `countLines`: the number of characters with code 10, added to
`count`. -/
def countLinesLoop : List Char → Nat → Nat
  | [], count => count
  | ch :: rest, count => countLinesLoop rest (if ch.toNat = 10 then count + 1 else count)

/-- The function `countLines`. -/
def countLines (text : String) : Nat :=
  if text.length = 0 then 0
  else
    let count := countLinesLoop text.data 0
    if text.length > 0 then count + 1 else 0

/-- The array `units` of `formatSize`. -/
def UNITS : List String := ["B", "KB", "MB", "GB"]

/-- The value `(bytes / Math.pow(k, i)).toFixed(1)`, in tenths. The division by
a power of two is exact, and `toFixed(1)` picks the integer `n` with `n / 10`
nearest to the quotient, the larger one on a tie: `n = ⌊10 * bytes / k ^ i + 1/2⌋`. -/
def toFixed1 (bytes k i : Nat) : Nat :=
  (20 * bytes + k ^ i) / (2 * k ^ i)

/-- The string of the number `parseFloat(t)` for `t` the one-decimal string of
`tenths / 10`, as string concatenation renders it: the decimal point and the
digit after it appear only when that digit is not `0`. -/
def numberToString (tenths : Nat) : String :=
  if tenths % 10 = 0 then toString (tenths / 10)
  else toString (tenths / 10) ++ "." ++ toString (tenths % 10)

/-- The number of times `n` can be divided by `k` before it drops below `k`,
within `fuel` divisions. -/
def floorLogFuel (k : Nat) : Nat → Nat → Nat
  | 0, _ => 0
  | fuel + 1, n => if n < k then 0 else floorLogFuel k fuel (n / k) + 1

/-- The value `Math.floor(Math.log(n) / Math.log(k))` for integers `n ≥ 1` and
`k ≥ 2`, taken at its real-number value `⌊log_k n⌋`. The floating-point quotient
of the code has the same floor as long as `n` is not within rounding distance
below a power of `k`; for `k = 1024` that holds for every `n` below `1024^4`,
and fails first just below `1024^5`, where the quotient rounds up to `5`. -/
def floorLog (k n : Nat) : Nat :=
  floorLogFuel k n n

/-- The function `formatSize` on a non-negative integer byte count. `units[i]`
beyond the array is `undefined`, which string concatenation renders as the
word. -/
def formatSize (bytes : Nat) : String :=
  if bytes = 0 then "0 B"
  else
    let k := 1024
    let i := floorLog k bytes
    numberToString (toFixed1 bytes k i) ++ " " ++ (UNITS[i]?).getD "undefined"

/-- A file handle: name, size, and the outcome of its content reads. `bytes` is
the content as a byte read delivers it, `text` the result of `file.text()`;
`none` is a read that fails. -/
structure File where
  name : String
  size : Nat
  bytes : Option (List Nat)
  text : Option String
deriving DecidableEq, Repr

/-- The read `file.slice(start, stop).arrayBuffer()`. -/
def File.sliceArrayBuffer (file : File) (start stop : Nat) : Option (List Nat) :=
  file.bytes.map (fun b => (b.drop start).take (stop - start))

/-- A validated file object, the result of `validateFile`. -/
structure FileRecord where
  id : String
  name : String
  size : Nat
  sizeFormatted : String
  lines : Nat
  language : Option Language
  status : Status
  statusLabel : String
  message : String
  file : File
deriving DecidableEq, Repr

/-- A content read started by `validateFile`. -/
inductive Read where
  | sliceArrayBuffer
  | text
deriving DecidableEq, Repr

/-- What a call of `validateFile` does: the record it resolves to and the
content reads it started, in order. -/
structure Validation where
  result : FileRecord
  reads : List Read
deriving DecidableEq, Repr

/-- The function `validateFile`; `drawn` is the number of identifiers drawn from
`crypto.randomUUID` before the call. -/
def validateFile (H : Host) (drawn : Nat) (file : File) : Validation :=
  let result : FileRecord :=
    { id := H.randomUUID drawn
      name := file.name
      size := file.size
      sizeFormatted := formatSize file.size
      lines := 0
      language := none
      status := Status.valid
      statusLabel := "Ready"
      message := ""
      file := file }
  -- 1. Extension check
  let ext := getExtension H file.name
  if ¬ ALLOWED_EXTENSIONS.contains ext then
    { result :=
        { result with
          status := Status.invalid
          statusLabel := "Unsupported"
          message := "File type \"" ++ (if ext = "" then "none" else ext)
            ++ "\" is not supported. Accepted: " ++ ", ".intercalate ALLOWED_EXTENSIONS }
      reads := [] }
  else
    -- 2. Language detection
    let result := { result with language := detectLanguage H file.name }
    -- 3. Empty file check
    if file.size = 0 then
      { result :=
          { result with
            status := Status.warning
            statusLabel := "Empty"
            message := "This file is empty (0 bytes). Nothing to analyse." }
        reads := [] }
    else
      -- 4. Binary detection: a failed read is caught and ignored
      let binary :=
        match file.sliceArrayBuffer 0 BINARY_CHECK_SIZE with
        | some buffer => isBinary buffer
        | none => false
      if binary then
        { result :=
            { result with
              status := Status.invalid
              statusLabel := "Binary"
              message := "This appears to be a binary file, not source code." }
          reads := [Read.sliceArrayBuffer] }
      else
        -- 5. Line count check
        match file.text with
        | some text =>
          let result := { result with lines := countLines text }
          if result.lines > MAX_LINES then
            { result :=
                { result with
                  status := Status.warning
                  statusLabel := "Too Large"
                  message := H.toLocaleString result.lines ++ " lines exceeds the "
                    ++ H.toLocaleString MAX_LINES ++ "-line limit." }
              reads := [Read.sliceArrayBuffer, Read.text] }
          else
            -- All good
            { result :=
                { result with
                  statusLabel := "Ready"
                  message := H.toLocaleString result.lines ++ " lines · "
                    ++ result.sizeFormatted }
              reads := [Read.sliceArrayBuffer, Read.text] }
        | none =>
          { result :=
              { result with
                status := Status.invalid
                statusLabel := "Unreadable"
                message := "Could not read file contents." }
            reads := [Read.sliceArrayBuffer, Read.text] }

/-! ## File manager -/

/-- The state of the page: the queue `fileQueue` and the number of identifiers
drawn from `crypto.randomUUID` so far. -/
structure State where
  fileQueue : List FileRecord
  drawn : Nat
deriving DecidableEq, Repr

/-- The counters of `addFiles`. -/
structure Counts where
  addedCount : Nat
  skippedCount : Nat
  invalidCount : Nat
deriving DecidableEq, Repr

/-- The test `f.name === file.name && f.size === file.size` of `addFiles`. -/
def sameFile (file : File) (f : FileRecord) : Bool :=
  decide (f.name = file.name) && decide (f.size = file.size)

/-- The `for` loop of `addFiles`, each iteration run to completion before the
next one starts. -/
def addFilesLoop (H : Host) : List File → State → Counts → State × Counts
  | [], s, c => (s, c)
  | file :: rest, s, c =>
    -- Deduplicate by name + size
    let found := s.fileQueue.any (sameFile file)
    if found then
      addFilesLoop H rest s { c with skippedCount := c.skippedCount + 1 }
    else
      let result := (validateFile H s.drawn file).result
      let s1 : State := { fileQueue := s.fileQueue ++ [result], drawn := s.drawn + 1 }
      let c1 := { c with addedCount := c.addedCount + 1 }
      let c2 :=
        if result.status = Status.invalid then
          { c1 with invalidCount := c1.invalidCount + 1 }
        else c1
      addFilesLoop H rest s1 c2

/-- The function `addFiles`: the state it leaves and its three counters. On an
empty list it returns before it declares the counters, which are reported as
zero here. -/
def addFiles (H : Host) (fileList : List File) (s : State) : State × Counts :=
  let newFiles := fileList
  if newFiles.length = 0 then (s, ⟨0, 0, 0⟩)
  else addFilesLoop H newFiles s ⟨0, 0, 0⟩

/-- The function `removeFile`. -/
def removeFile (id : String) (s : State) : State :=
  { s with fileQueue := s.fileQueue.filter (fun f => decide (f.id ≠ id)) }

/-- The function `clearQueue`. -/
def clearQueue (s : State) : State :=
  { s with fileQueue := [] }

/-- The page as loaded: `fileQueue = []`. -/
def State.initial : State := { fileQueue := [], drawn := 0 }

/-- A call of one of the three queue operations. -/
inductive Op where
  | addFiles (fileList : List File)
  | removeFile (id : String)
  | clearQueue
deriving DecidableEq, Repr

/-- One call, run to completion. -/
def Op.apply (H : Host) (s : State) : Op → State
  | Op.addFiles fileList => (CodeShield.addFiles H fileList s).1
  | Op.removeFile id => CodeShield.removeFile id s
  | Op.clearQueue => CodeShield.clearQueue s

/-- A sequence of calls, each run to completion before the next starts. -/
def run (H : Host) (ops : List Op) (s : State) : State :=
  ops.foldl (Op.apply H) s

/-- The identity key `(name, size)` of a record. -/
def FileRecord.key (f : FileRecord) : String × Nat := (f.name, f.size)

/-- The identity key `(name, size)` of a handle. -/
def File.key (file : File) : String × Nat := (file.name, file.size)

/-- A host for concrete runs: ASCII lower-casing, plain decimal numbers and
identifiers `id-0`, `id-1`, ... -/
def Host.ascii : Host :=
  { toLowerCase := fun s => String.mk (s.data.map Char.toLower)
    toLocaleString := fun n => toString n
    randomUUID := fun n => "id-" ++ toString n }


/-! ## The batch, declaratively -/

/-- The handles of a batch that are not duplicates, in batch order: a handle is
a duplicate when its `(name, size)` is that of a record of the queue `q` as it
was before the call, or of a handle that comes earlier in the batch (`earlier`
collects the handles already passed). -/
def keptAfter (q : List FileRecord) (earlier : List File) : List File → List File
  | [] => []
  | f :: rest =>
    if f.key ∈ q.map FileRecord.key ++ earlier.map File.key then
      keptAfter q (earlier ++ [f]) rest
    else f :: keptAfter q (earlier ++ [f]) rest

/-- The non-duplicate handles of a whole batch. -/
def nonSkipped (q : List FileRecord) (fileList : List File) : List File :=
  keptAfter q [] fileList

/-- The records of handles validated one after the other, the first with
`drawn` identifiers already drawn. -/
def validateAll (H : Host) : Nat → List File → List FileRecord
  | _, [] => []
  | drawn, f :: rest => (validateFile H drawn f).result :: validateAll H (drawn + 1) rest

/-! ## Rendering and scanning -/

/-- The list `validFiles` of `renderQueue` and of the scan button's handler. -/
def validFiles (q : List FileRecord) : List FileRecord :=
  q.filter (fun f => decide (f.status = Status.valid))

/-- The list `warningFiles` of `renderQueue`. -/
def warningFiles (q : List FileRecord) : List FileRecord :=
  q.filter (fun f => decide (f.status = Status.warning))

/-- The list `invalidFiles` of `renderQueue`. -/
def invalidFiles (q : List FileRecord) : List FileRecord :=
  q.filter (fun f => decide (f.status = Status.invalid))

/-- The click handler of `btnScan`: the records handed on to the scan, `none`
when there is no valid file and the handler returns after its error toast. -/
def btnScanClick (s : State) : Option (List FileRecord) :=
  let valid := validFiles s.fileQueue
  if valid.length = 0 then none else some valid

/-! ## Letter case -/

/-- The string with its ASCII capital letters replaced by the small ones: two
strings are equal up to ASCII letter case when their images are equal. -/
def asciiLower (s : String) : String :=
  String.mk (s.data.map Char.toLower)

/-! ## Overlapping invocations -/

/-- An invocation of `addFiles` suspended at `await validateFile(file)`:
`pending` is the record the validation in flight resolves to (its identifier
was drawn when the validation started) and `rest` the handles the loop has not
reached yet. -/
structure Task where
  pending : FileRecord
  rest : List File
deriving DecidableEq, Repr

/-- The loop of `addFiles` from the top of an iteration up to its next
suspension: duplicates are skipped without suspending; the first handle that is
not a duplicate of a queued record starts a validation, and the invocation is
suspended on it; `none` when the loop ends. -/
def scan (H : Host) : List File → State → State × Option Task
  | [], s => (s, none)
  | file :: rest, s =>
    if s.fileQueue.any (sameFile file) then scan H rest s
    else
      ({ s with drawn := s.drawn + 1 },
        some { pending := (validateFile H s.drawn file).result, rest := rest })

/-- A suspended invocation is resumed: `fileQueue.push(result)`, then the loop
goes on to its next suspension. -/
def resume (H : Host) (t : Task) (s : State) : State × Option Task :=
  scan H t.rest { s with fileQueue := s.fileQueue ++ [t.pending] }

/-- The page with its suspended invocations of `addFiles`. -/
structure Page where
  state : State
  tasks : List Task
deriving DecidableEq, Repr

/-- What the event loop does next: an event handler calls `addFiles` on a
batch, or the validation awaited by the suspended invocation number `i`
settles. -/
inductive Event where
  | call (fileList : List File)
  | settle (i : Nat)
deriving DecidableEq, Repr

/-- One turn of the event loop: the invocation called or resumed runs up to its
next suspension, the other invocations stay suspended. -/
def Page.step (H : Host) (p : Page) : Event → Page
  | Event.call fileList =>
    match scan H fileList p.state with
    | (s, some t) => { state := s, tasks := p.tasks ++ [t] }
    | (s, none) => { state := s, tasks := p.tasks }
  | Event.settle i =>
    match p.tasks[i]? with
    | none => p
    | some t =>
      match resume H t p.state with
      | (s, some t1) => { state := s, tasks := p.tasks.set i t1 }
      | (s, none) => { state := s, tasks := p.tasks.eraseIdx i }

/-- A sequence of turns of the event loop. -/
def Page.run (H : Host) (events : List Event) (p : Page) : Page :=
  events.foldl (Page.step H) p

/-- One invocation run without any other in between: it is resumed until it
ends, at most `fuel` times. -/
def runAlone (H : Host) : Nat → State × Option Task → State
  | _, (s, none) => s
  | 0, (s, some _) => s
  | fuel + 1, (s, some t) => runAlone H fuel (resume H t s)

/-! ## Line counting -/

theorem toNat_eq_ten_iff (ch : Char) : ch.toNat = 10 ↔ ch = '\n' := by
  constructor
  · intro h
    apply Char.ext
    apply UInt32.ext
    exact h
  · intro h
    subst h
    rfl

theorem countLinesLoop_eq (l : List Char) (count : Nat) :
    countLinesLoop l count = count + l.count '\n' := by
  induction l generalizing count with
  | nil => simp [countLinesLoop]
  | cons ch rest ih =>
    rw [countLinesLoop, ih]
    by_cases h : ch = '\n'
    · subst h
      simp
      omega
    · have h10 : ¬ ch.toNat = 10 := fun e => h ((toNat_eq_ten_iff ch).1 e)
      simp [h10, List.count_cons, h]

theorem countLines_eq (text : String) :
    countLines text = if text = "" then 0 else text.data.count '\n' + 1 := by
  unfold countLines
  by_cases h : text = ""
  · subst h
    simp
  · have hlen : text.length ≠ 0 := by
      intro e
      apply h
      have : text.data = [] := List.length_eq_zero.1 e
      exact String.ext this
    have hpos : text.length > 0 := Nat.pos_of_ne_zero hlen
    simp [h, hlen, hpos, countLinesLoop_eq]

/-- C10: `countLines` returns 0 on the empty text and otherwise the number of
line-feed characters plus one; so `""` gives 0, `"a"` 1, `"a\n"` 2, `"a\nb"` 2
and `"a\nb\n"` 3. -/
theorem countLines_spec (text : String) :
    countLines text = (if text = "" then 0 else text.data.count '\n' + 1)
      ∧ countLines "" = 0
      ∧ countLines "a" = 1
      ∧ countLines "a\n" = 2
      ∧ countLines "a\nb" = 2
      ∧ countLines "a\nb\n" = 3 :=
  ⟨countLines_eq text, by decide, by decide, by decide, by decide, by decide⟩

/-! ## Binary detection -/

theorem isBinaryLoop_iff (view : List Nat) (left i : Nat) :
    isBinaryLoop view left i = true ↔ ∃ j, i ≤ j ∧ j < i + left ∧ view[j]? = some 0 := by
  induction left generalizing i with
  | zero =>
    simp only [isBinaryLoop, Bool.false_eq_true, false_iff]
    rintro ⟨j, h1, h2, _⟩
    omega
  | succ n ih =>
    rw [isBinaryLoop]
    by_cases h : view[i]? = some 0
    · simp only [h, if_true, true_iff]
      exact ⟨i, Nat.le_refl i, by omega, h⟩
    · simp only [h, if_false]
      rw [ih]
      constructor
      · rintro ⟨j, h1, h2, h3⟩
        exact ⟨j, by omega, by omega, h3⟩
      · rintro ⟨j, h1, h2, h3⟩
        have hne : j ≠ i := by
          intro e
          subst e
          exact h h3
        exact ⟨j, by omega, by omega, h3⟩

theorem isBinary_iff (buffer : List Nat) :
    isBinary buffer = true ↔
      ∃ i, i < min buffer.length BINARY_CHECK_SIZE ∧ buffer[i]? = some 0 := by
  unfold isBinary
  rw [isBinaryLoop_iff]
  constructor
  · rintro ⟨j, _, h2, h3⟩
    exact ⟨j, by omega, h3⟩
  · rintro ⟨j, h2, h3⟩
    exact ⟨j, Nat.zero_le j, by omega, h3⟩

/-- C9: `isBinary` returns true exactly when some byte at an index below
`min(length, 8192)` is `0x00`; a buffer whose null bytes all sit at index 8192
or later gives false. -/
theorem isBinary_spec (buffer : List Nat) :
    (isBinary buffer = true ↔ ∃ i, i < min buffer.length 8192 ∧ buffer[i]? = some 0)
      ∧ ((∀ i, buffer[i]? = some 0 → 8192 ≤ i) → isBinary buffer = false) := by
  refine ⟨isBinary_iff buffer, fun h => ?_⟩
  cases hb : isBinary buffer with
  | false => rfl
  | true =>
    obtain ⟨i, hi, h0⟩ := (isBinary_iff buffer).1 hb
    have := h i h0
    have : i < 8192 := lt_of_lt_of_le hi (Nat.min_le_right _ _)
    omega

/-! ## Removal -/

/-- C8: `removeFile(id)` keeps the records whose id differs from `id`, each as
often as before, in their original relative order and unmodified, and drops
every record with that id; when no record has that id the state is unchanged. -/
theorem removeFile_spec (id : String) (s : State) :
    List.Sublist (removeFile id s).fileQueue s.fileQueue
      ∧ (∀ f : FileRecord, (removeFile id s).fileQueue.count f
            = if f.id = id then 0 else s.fileQueue.count f)
      ∧ (∀ f : FileRecord, f ∈ (removeFile id s).fileQueue ↔ f ∈ s.fileQueue ∧ f.id ≠ id)
      ∧ (removeFile id s).drawn = s.drawn
      ∧ ((∀ f ∈ s.fileQueue, f.id ≠ id) → removeFile id s = s) := by
  refine ⟨List.filter_sublist _, ?_, ?_, rfl, ?_⟩
  · intro f
    simp only [removeFile]
    by_cases h : f.id = id
    · simp only [h, if_true]
      rw [List.count_eq_zero]
      intro hm
      have := (List.mem_filter.1 hm).2
      simp [h] at this
    · simp only [h, if_false]
      rw [List.count_filter]
      simp [h]
  · intro f
    simp [removeFile, List.mem_filter]
  · intro h
    cases s with
    | mk q d =>
      simp only [removeFile]
      congr
      rw [List.filter_eq_self]
      intro f hf
      simpa using h f hf

/-! ## The validator -/

theorem lastIndexOfFrom_of_not_mem (c : Char) (l : List Char) (i : Nat) (acc : Int)
    (h : c ∉ l) : lastIndexOfFrom c l i acc = acc := by
  induction l generalizing i acc with
  | nil => rfl
  | cons x xs ih =>
    have hx : x ≠ c := fun e => h (by simp [e])
    have hxs : c ∉ xs := fun e => h (by simp [e])
    rw [lastIndexOfFrom, ih _ _ hxs]
    simp [hx]

theorem getExtension_of_no_dot (H : Host) (filename : String) (h : '.' ∉ filename.data) :
    getExtension H filename = "" := by
  simp [getExtension, lastIndexOf, lastIndexOfFrom_of_not_mem _ _ _ _ h]

theorem contains_allowed_iff (ext : String) :
    ALLOWED_EXTENSIONS.contains ext = true ↔ ext ∈ ALLOWED_EXTENSIONS := by
  simp

theorem detectLanguage_isSome (H : Host) (filename : String)
    (h : getExtension H filename ∈ ALLOWED_EXTENSIONS) :
    ∃ l, detectLanguage H filename = some l := by
  simp only [ALLOWED_EXTENSIONS, List.mem_cons, List.mem_singleton, List.mem_nil_iff,
    or_false] at h
  rcases h with h | h | h | h <;>
    simp [detectLanguage, h, EXTENSION_LANG_MAP, langLookup]

theorem validateFile_unsupported_eq (H : Host) (drawn : Nat) (file : File)
    (h : getExtension H file.name ∉ ALLOWED_EXTENSIONS) :
    validateFile H drawn file =
      { result :=
          { id := H.randomUUID drawn
            name := file.name
            size := file.size
            sizeFormatted := formatSize file.size
            lines := 0
            language := none
            status := Status.invalid
            statusLabel := "Unsupported"
            message := "File type \"" ++
              (if getExtension H file.name = "" then "none" else getExtension H file.name)
              ++ "\" is not supported. Accepted: " ++ ", ".intercalate ALLOWED_EXTENSIONS
            file := file }
        reads := [] } := by
  have hc : ALLOWED_EXTENSIONS.contains (getExtension H file.name) = false := by
    cases e : ALLOWED_EXTENSIONS.contains (getExtension H file.name) with
    | false => rfl
    | true => exact absurd ((contains_allowed_iff _).1 e) h
  unfold validateFile
  simp only [hc, Bool.false_eq_true, not_false_eq_true, if_true]

theorem validateFile_empty_eq (H : Host) (drawn : Nat) (file : File)
    (h : getExtension H file.name ∈ ALLOWED_EXTENSIONS) (hsize : file.size = 0) :
    validateFile H drawn file =
      { result :=
          { id := H.randomUUID drawn
            name := file.name
            size := file.size
            sizeFormatted := formatSize file.size
            lines := 0
            language := detectLanguage H file.name
            status := Status.warning
            statusLabel := "Empty"
            message := "This file is empty (0 bytes). Nothing to analyse."
            file := file }
        reads := [] } := by
  have hc : ALLOWED_EXTENSIONS.contains (getExtension H file.name) = true :=
    (contains_allowed_iff _).2 h
  unfold validateFile
  simp only [hc, not_true_eq_false, if_false, hsize, if_true]

theorem validateFile_binary_eq (H : Host) (drawn : Nat) (file : File) (buffer : List Nat)
    (h : getExtension H file.name ∈ ALLOWED_EXTENSIONS) (hsize : file.size ≠ 0)
    (hs : file.sliceArrayBuffer 0 BINARY_CHECK_SIZE = some buffer)
    (hb : isBinary buffer = true) :
    validateFile H drawn file =
      { result :=
          { id := H.randomUUID drawn
            name := file.name
            size := file.size
            sizeFormatted := formatSize file.size
            lines := 0
            language := detectLanguage H file.name
            status := Status.invalid
            statusLabel := "Binary"
            message := "This appears to be a binary file, not source code."
            file := file }
        reads := [Read.sliceArrayBuffer] } := by
  have hc : ALLOWED_EXTENSIONS.contains (getExtension H file.name) = true :=
    (contains_allowed_iff _).2 h
  unfold validateFile
  simp only [hc, not_true_eq_false, if_false, hsize, hs, hb, if_true]

theorem validateFile_text_eq (H : Host) (drawn : Nat) (file : File)
    (h : getExtension H file.name ∈ ALLOWED_EXTENSIONS) (hsize : file.size ≠ 0)
    (hs : ∀ buffer, file.sliceArrayBuffer 0 BINARY_CHECK_SIZE = some buffer →
      isBinary buffer = false) :
    validateFile H drawn file =
      match file.text with
      | some text =>
        if countLines text > MAX_LINES then
          { result :=
              { id := H.randomUUID drawn
                name := file.name
                size := file.size
                sizeFormatted := formatSize file.size
                lines := countLines text
                language := detectLanguage H file.name
                status := Status.warning
                statusLabel := "Too Large"
                message := H.toLocaleString (countLines text) ++ " lines exceeds the "
                  ++ H.toLocaleString MAX_LINES ++ "-line limit."
                file := file }
            reads := [Read.sliceArrayBuffer, Read.text] }
        else
          { result :=
              { id := H.randomUUID drawn
                name := file.name
                size := file.size
                sizeFormatted := formatSize file.size
                lines := countLines text
                language := detectLanguage H file.name
                status := Status.valid
                statusLabel := "Ready"
                message := H.toLocaleString (countLines text) ++ " lines · "
                  ++ formatSize file.size
                file := file }
            reads := [Read.sliceArrayBuffer, Read.text] }
      | none =>
        { result :=
            { id := H.randomUUID drawn
              name := file.name
              size := file.size
              sizeFormatted := formatSize file.size
              lines := 0
              language := detectLanguage H file.name
              status := Status.invalid
              statusLabel := "Unreadable"
              message := "Could not read file contents."
              file := file }
          reads := [Read.sliceArrayBuffer, Read.text] } := by
  have hc : ALLOWED_EXTENSIONS.contains (getExtension H file.name) = true :=
    (contains_allowed_iff _).2 h
  unfold validateFile
  simp only [hc, not_true_eq_false, if_false, hsize]
  cases hsl : file.sliceArrayBuffer 0 BINARY_CHECK_SIZE with
  | none =>
    simp only [Bool.false_eq_true, if_false]
  | some buffer =>
    simp only [hs buffer hsl, Bool.false_eq_true, if_false]

theorem isBinary_eq_false_of_not_mem (buffer : List Nat) (h : 0 ∉ buffer) :
    isBinary buffer = false := by
  cases hb : isBinary buffer with
  | false => rfl
  | true =>
    obtain ⟨i, _, h0⟩ := (isBinary_iff buffer).1 hb
    exact absurd (List.getElem?_mem h0) h

theorem sliceArrayBuffer_clean (file : File) (b : List Nat) (hb : file.bytes = some b)
    (h0 : 0 ∉ b.take 8192) (buffer : List Nat)
    (hs : file.sliceArrayBuffer 0 BINARY_CHECK_SIZE = some buffer) :
    isBinary buffer = false := by
  simp only [File.sliceArrayBuffer, hb, Option.map_some', List.drop_zero, Nat.sub_zero,
    BINARY_CHECK_SIZE, Option.some.injEq] at hs
  subst hs
  exact isBinary_eq_false_of_not_mem _ h0

theorem validateFile_name (H : Host) (drawn : Nat) (file : File) :
    (validateFile H drawn file).result.name = file.name := by
  unfold validateFile
  dsimp only
  split_ifs <;> (try split) <;> (try split_ifs) <;> rfl

theorem validateFile_size (H : Host) (drawn : Nat) (file : File) :
    (validateFile H drawn file).result.size = file.size := by
  unfold validateFile
  dsimp only
  split_ifs <;> (try split) <;> (try split_ifs) <;> rfl

theorem countLines_replicate (n : Nat) (hn : 0 < n) :
    countLines (String.mk (List.replicate n '\n')) = n + 1 := by
  have hne : String.mk (List.replicate n '\n') ≠ "" := by
    intro e
    have hlen := congrArg String.length e
    rw [String.length, List.length_replicate] at hlen
    have h0 : "".length = 0 := rfl
    omega
  rw [countLines_eq, if_neg hne, List.count_replicate_self]

theorem zero_not_mem_take_replicate (n m : Nat) : 0 ∉ (List.replicate n 10).take m := by
  intro h
  have h10 := List.eq_of_mem_replicate (List.mem_of_mem_take h)
  omega

/-- C3: for a handle with an allowed extension, a size other than 0, a first
8192 bytes free of null bytes and a full-text read that succeeds with `t`,
`validateFile` returns `lines = countLines t`, with status `warning` and label
"Too Large" exactly when `countLines t > 10000`, and status `valid` with label
"Ready" otherwise. -/
theorem validateFile_line_limit (H : Host) (drawn : Nat) (file : File) (b : List Nat)
    (t : String)
    (hext : getExtension H file.name ∈ [".py", ".java", ".js", ".cpp"])
    (hsize : file.size ≠ 0) (hb : file.bytes = some b) (h0 : 0 ∉ b.take 8192)
    (ht : file.text = some t) :
    (validateFile H drawn file).result.lines = countLines t
      ∧ (((validateFile H drawn file).result.status = Status.warning
            ∧ (validateFile H drawn file).result.statusLabel = "Too Large")
          ↔ countLines t > 10000)
      ∧ (¬ countLines t > 10000 →
          (validateFile H drawn file).result.status = Status.valid
            ∧ (validateFile H drawn file).result.statusLabel = "Ready") := by
  rw [validateFile_text_eq H drawn file hext hsize (sliceArrayBuffer_clean file b hb h0), ht]
  simp only [MAX_LINES]
  by_cases hl : countLines t > 10000
  · simp [hl]
  · simp [hl]

/-- A file of 10,001 counted lines is flagged "Too Large" and one of exactly
10,000 counted lines is "Ready". -/
theorem validateFile_line_limit_witness :
    ((validateFile Host.ascii 0
        ⟨"big.py", 10000, some (List.replicate 10000 10),
          some (String.mk (List.replicate 10000 '\n'))⟩).result.status = Status.warning
      ∧ (validateFile Host.ascii 0
        ⟨"big.py", 10000, some (List.replicate 10000 10),
          some (String.mk (List.replicate 10000 '\n'))⟩).result.statusLabel = "Too Large")
    ∧ ((validateFile Host.ascii 0
        ⟨"max.py", 9999, some (List.replicate 9999 10),
          some (String.mk (List.replicate 9999 '\n'))⟩).result.status = Status.valid
      ∧ (validateFile Host.ascii 0
        ⟨"max.py", 9999, some (List.replicate 9999 10),
          some (String.mk (List.replicate 9999 '\n'))⟩).result.statusLabel = "Ready") := by
  constructor
  · refine (validateFile_line_limit Host.ascii 0 _ (List.replicate 10000 10)
      (String.mk (List.replicate 10000 '\n')) (by decide) (by decide) rfl ?_ rfl).2.1.2 ?_
    · exact zero_not_mem_take_replicate 10000 8192
    · rw [countLines_replicate 10000 (by omega)]
      omega
  · refine (validateFile_line_limit Host.ascii 0 _ (List.replicate 9999 10)
      (String.mk (List.replicate 9999 '\n')) (by decide) (by decide) rfl ?_ rfl).2.2 ?_
    · exact zero_not_mem_take_replicate 9999 8192
    · rw [countLines_replicate 9999 (by omega)]
      omega

/-- C4: a handle whose extension is outside the allow-list, or whose name has
no `.`, gets status `invalid`, label "Unsupported", language `null` and lines 0,
whatever its size and content, and no content read is started. -/
theorem validateFile_unsupported (H : Host) (drawn : Nat) (file : File)
    (h : getExtension H file.name ∉ [".py", ".java", ".js", ".cpp"]
      ∨ '.' ∉ file.name.data) :
    (validateFile H drawn file).result.status = Status.invalid
      ∧ (validateFile H drawn file).result.statusLabel = "Unsupported"
      ∧ (validateFile H drawn file).result.language = none
      ∧ (validateFile H drawn file).result.lines = 0
      ∧ (validateFile H drawn file).reads = [] := by
  have hext : getExtension H file.name ∉ ALLOWED_EXTENSIONS := by
    rcases h with h | h
    · exact h
    · rw [getExtension_of_no_dot H _ h]
      decide
  rw [validateFile_unsupported_eq H drawn file hext]
  exact ⟨rfl, rfl, rfl, rfl, rfl⟩

/-- A text file and a file without extension are both rejected as unsupported. -/
theorem validateFile_unsupported_witness :
    ((validateFile Host.ascii 0
        ⟨"notes.txt", 2, some [104, 105], some "hi"⟩).result.statusLabel = "Unsupported"
      ∧ (validateFile Host.ascii 0 ⟨"notes.txt", 2, some [104, 105], some "hi"⟩).reads = [])
    ∧ (validateFile Host.ascii 0
        ⟨"Makefile", 2, some [104, 105], some "hi"⟩).result.status = Status.invalid :=
  ⟨⟨(validateFile_unsupported Host.ascii 0 ⟨"notes.txt", 2, some [104, 105], some "hi"⟩
      (Or.inl (by decide))).2.1,
    (validateFile_unsupported Host.ascii 0 ⟨"notes.txt", 2, some [104, 105], some "hi"⟩
      (Or.inl (by decide))).2.2.2.2⟩,
   (validateFile_unsupported Host.ascii 0 ⟨"Makefile", 2, some [104, 105], some "hi"⟩
      (Or.inr (by decide))).1⟩

/-- C6: for a handle of size 0, an allowed extension gives status `warning`,
label "Empty", a non-null language and lines 0 with no content read started; an
extension outside the allow-list gives status `invalid`. -/
theorem validateFile_empty (H : Host) (drawn : Nat) (file : File) (hsize : file.size = 0) :
    (getExtension H file.name ∈ [".py", ".java", ".js", ".cpp"] →
        (validateFile H drawn file).result.status = Status.warning
          ∧ (validateFile H drawn file).result.statusLabel = "Empty"
          ∧ (validateFile H drawn file).result.language ≠ none
          ∧ (validateFile H drawn file).result.lines = 0
          ∧ (validateFile H drawn file).reads = [])
      ∧ (getExtension H file.name ∉ [".py", ".java", ".js", ".cpp"] →
        (validateFile H drawn file).result.status = Status.invalid) := by
  constructor
  · intro hext
    rw [validateFile_empty_eq H drawn file hext hsize]
    refine ⟨rfl, rfl, ?_, rfl, rfl⟩
    obtain ⟨l, hl⟩ := detectLanguage_isSome H file.name hext
    simp [hl]
  · intro hext
    rw [validateFile_unsupported_eq H drawn file hext]

/-- An empty JavaScript file is flagged "Empty"; an empty text file is invalid. -/
theorem validateFile_empty_witness :
    (validateFile Host.ascii 0 ⟨"empty.js", 0, some [], some ""⟩).result.statusLabel = "Empty"
      ∧ (validateFile Host.ascii 0 ⟨"empty.txt", 0, some [], some ""⟩).result.status
          = Status.invalid :=
  ⟨((validateFile_empty Host.ascii 0 ⟨"empty.js", 0, some [], some ""⟩ rfl).1
      (by decide)).2.1,
   (validateFile_empty Host.ascii 0 ⟨"empty.txt", 0, some [], some ""⟩ rfl).2 (by decide)⟩

/-- C7: `validateFile` returns a record whatever the two content reads do. For a
handle with an allowed extension and a size other than 0: when the read of the
first 8192 bytes fails, the record is, field for field apart from the handle
kept in it, the one produced when that read succeeds with a prefix free of null
bytes, and its verdict is decided by the full-text read alone; when the
full-text read fails and the sniff has not reported binary, the record has
status `invalid`, label "Unreadable" and lines 0. -/
theorem validateFile_read_failure (H : Host) (drawn : Nat) (file : File)
    (hext : getExtension H file.name ∈ [".py", ".java", ".js", ".cpp"])
    (hsize : file.size ≠ 0) :
    (∀ b : List Nat, 0 ∉ b.take 8192 →
        { (validateFile H drawn { file with bytes := none }).result with
            file := { file with bytes := some b } }
          = (validateFile H drawn { file with bytes := some b }).result
        ∧ (validateFile H drawn { file with bytes := none }).reads
          = (validateFile H drawn { file with bytes := some b }).reads)
      ∧ (file.bytes = none → ∀ t, file.text = some t →
          (validateFile H drawn file).result.lines = countLines t
            ∧ (validateFile H drawn file).result.status
                = (if countLines t > 10000 then Status.warning else Status.valid))
      ∧ (file.text = none →
          (∀ buffer, file.sliceArrayBuffer 0 8192 = some buffer → isBinary buffer = false) →
          (validateFile H drawn file).result.status = Status.invalid
            ∧ (validateFile H drawn file).result.statusLabel = "Unreadable"
            ∧ (validateFile H drawn file).result.lines = 0) := by
  refine ⟨?_, ?_, ?_⟩
  · intro b h0
    have hnone : ∀ buffer,
        File.sliceArrayBuffer { file with bytes := none } 0 BINARY_CHECK_SIZE = some buffer →
        isBinary buffer = false := by
      intro buffer hs
      simp [File.sliceArrayBuffer] at hs
    rw [validateFile_text_eq H drawn { file with bytes := none } hext hsize hnone,
      validateFile_text_eq H drawn { file with bytes := some b } hext hsize
        (sliceArrayBuffer_clean _ b rfl h0)]
    cases file.text with
    | none => exact ⟨rfl, rfl⟩
    | some t =>
      simp only
      split <;> exact ⟨rfl, rfl⟩
  · intro hb t ht
    have hnone : ∀ buffer,
        file.sliceArrayBuffer 0 BINARY_CHECK_SIZE = some buffer → isBinary buffer = false := by
      intro buffer hs
      simp [File.sliceArrayBuffer, hb] at hs
    rw [validateFile_text_eq H drawn file hext hsize hnone, ht]
    simp only [MAX_LINES]
    split <;> exact ⟨rfl, rfl⟩
  · intro ht hs
    rw [validateFile_text_eq H drawn file hext hsize hs, ht]
    exact ⟨rfl, rfl, rfl⟩

/-- A Python file both of whose reads fail is reported as "Unreadable". -/
theorem validateFile_read_failure_witness :
    (validateFile Host.ascii 0 ⟨"locked.py", 12, none, none⟩).result.status = Status.invalid
      ∧ (validateFile Host.ascii 0 ⟨"locked.py", 12, none, none⟩).result.statusLabel
          = "Unreadable"
      ∧ (validateFile Host.ascii 0 ⟨"locked.py", 12, none, none⟩).result.lines = 0 :=
  (validateFile_read_failure Host.ascii 0 ⟨"locked.py", 12, none, none⟩
    (by decide) (by decide)).2.2 rfl (fun _ hs => Option.noConfusion hs)

/-! ## Size formatting -/

theorem floorLogFuel_eq_log (k : Nat) (hk : 1 < k) (fuel n : Nat) (h : n ≤ fuel) :
    floorLogFuel k fuel n = Nat.log k n := by
  induction fuel generalizing n with
  | zero =>
    have hn : n = 0 := Nat.le_zero.1 h
    subst hn
    simp [floorLogFuel]
  | succ fuel ih =>
    rw [floorLogFuel]
    by_cases hlt : n < k
    · rw [if_pos hlt, Nat.log_of_lt hlt]
    · rw [if_neg hlt, Nat.log_of_one_lt_of_le hk (Nat.le_of_not_lt hlt)]
      congr 1
      apply ih
      have hpos : 0 < n := by omega
      have := Nat.div_lt_self hpos hk
      omega

theorem floorLog_eq_log (k n : Nat) (hk : 1 < k) : floorLog k n = Nat.log k n :=
  floorLogFuel_eq_log k hk n n (Nat.le_refl n)

theorem floorLog_bounds (bytes : Nat) (hpos : 0 < bytes) :
    1024 ^ floorLog 1024 bytes ≤ bytes ∧ bytes < 1024 ^ (floorLog 1024 bytes + 1) := by
  rw [floorLog_eq_log 1024 bytes (by omega)]
  exact ⟨Nat.pow_log_le_self 1024 (by omega), Nat.lt_pow_succ_log_self (by omega) bytes⟩

theorem floorLog_lt_four (bytes : Nat) (hpos : 0 < bytes) (h : bytes < 1024 ^ 4) :
    floorLog 1024 bytes < 4 := by
  rw [floorLog_eq_log 1024 bytes (by omega)]
  exact Nat.log_lt_of_lt_pow (by omega) h

theorem UNITS_getElem?_isSome (i : Nat) (h : i < 4) : ∃ unit, UNITS[i]? = some unit := by
  have h4 : i = 0 ∨ i = 1 ∨ i = 2 ∨ i = 3 := by omega
  rcases h4 with e | e | e | e <;> subst e
  · exact ⟨"B", rfl⟩
  · exact ⟨"KB", rfl⟩
  · exact ⟨"MB", rfl⟩
  · exact ⟨"GB", rfl⟩

theorem digitChar_isDigit : ∀ d, d < 10 → (Nat.digitChar d).isDigit = true := by
  decide

theorem toDigitsCore_isDigit (fuel n : Nat) (acc : List Char)
    (hacc : ∀ c ∈ acc, c.isDigit = true) :
    ∀ c ∈ Nat.toDigitsCore 10 fuel n acc, c.isDigit = true := by
  induction fuel generalizing n acc with
  | zero => simpa [Nat.toDigitsCore] using hacc
  | succ fuel ih =>
    have hd : (Nat.digitChar (n % 10)).isDigit = true :=
      digitChar_isDigit _ (Nat.mod_lt _ (by omega))
    have hacc2 : ∀ c ∈ Nat.digitChar (n % 10) :: acc, c.isDigit = true := by
      intro c hc
      rcases List.mem_cons.1 hc with h | h
      · rw [h]
        exact hd
      · exact hacc c h
    rw [Nat.toDigitsCore]
    split
    · exact hacc2
    · exact ih _ _ hacc2

theorem toDigitsCore_ne_nil (fuel n : Nat) (acc : List Char) (hacc : acc ≠ []) :
    Nat.toDigitsCore 10 fuel n acc ≠ [] := by
  induction fuel generalizing n acc with
  | zero => simpa [Nat.toDigitsCore] using hacc
  | succ fuel ih =>
    rw [Nat.toDigitsCore]
    split
    · exact List.cons_ne_nil _ _
    · exact ih _ _ (List.cons_ne_nil _ _)

theorem toString_isDigit (n : Nat) : ∀ c ∈ (toString n).data, c.isDigit = true := by
  show ∀ c ∈ (Nat.toDigitsCore 10 (n + 1) n []), c.isDigit = true
  exact toDigitsCore_isDigit _ _ _ (by simp)

theorem toString_ne_nil (n : Nat) : (toString n).data ≠ [] := by
  show Nat.toDigitsCore 10 (n + 1) n [] ≠ []
  rw [Nat.toDigitsCore]
  split
  · exact List.cons_ne_nil _ _
  · exact toDigitsCore_ne_nil _ _ _ (List.cons_ne_nil _ _)

theorem toString_digit : ∀ d, d < 10 → (toString d).data = [Nat.digitChar d] := by
  decide

theorem digitChar_ne_zero : ∀ d, d < 10 → d ≠ 0 → Nat.digitChar d ≠ '0' := by
  decide

theorem numberToString_shape (tenths : Nat) :
    ∃ whole : List Char, whole ≠ [] ∧ (∀ c ∈ whole, c.isDigit = true)
      ∧ ((numberToString tenths).data = whole
        ∨ ∃ d : Char, d.isDigit = true ∧ d ≠ '0'
            ∧ (numberToString tenths).data = whole ++ ['.', d]) := by
  refine ⟨(toString (tenths / 10)).data, toString_ne_nil _, toString_isDigit _, ?_⟩
  unfold numberToString
  by_cases h : tenths % 10 = 0
  · left
    rw [if_pos h]
  · right
    have hlt : tenths % 10 < 10 := Nat.mod_lt _ (by omega)
    refine ⟨Nat.digitChar (tenths % 10), digitChar_isDigit _ hlt,
      digitChar_ne_zero _ hlt h, ?_⟩
    rw [if_neg h]
    simp [String.data_append, toString_digit _ hlt]

theorem toFixed1_nearest (bytes k i : Nat) (hk : 0 < k) :
    2 * toFixed1 bytes k i * k ^ i ≤ 20 * bytes + k ^ i
      ∧ 20 * bytes + k ^ i < 2 * (toFixed1 bytes k i + 1) * k ^ i := by
  have hp : 0 < k ^ i := Nat.pow_pos hk
  have hd : 0 < 2 * k ^ i := by omega
  have hdiv := Nat.div_add_mod (20 * bytes + k ^ i) (2 * k ^ i)
  have hmod := Nat.mod_lt (20 * bytes + k ^ i) hd
  have e1 : 2 * toFixed1 bytes k i * k ^ i
      = 2 * k ^ i * ((20 * bytes + k ^ i) / (2 * k ^ i)) := by
    unfold toFixed1
    ring
  have e2 : 2 * (toFixed1 bytes k i + 1) * k ^ i
      = 2 * k ^ i * ((20 * bytes + k ^ i) / (2 * k ^ i)) + 2 * k ^ i := by
    unfold toFixed1
    ring
  rw [e1, e2]
  constructor <;> omega

theorem numberToString_data (tenths : Nat) :
    (numberToString tenths).data
      = (toString (tenths / 10)).data
        ++ (if tenths % 10 = 0 then [] else ['.', Nat.digitChar (tenths % 10)]) := by
  unfold numberToString
  by_cases h : tenths % 10 = 0
  · rw [if_pos h, if_pos h, List.append_nil]
  · have hlt : tenths % 10 < 10 := Nat.mod_lt _ (by omega)
    rw [if_neg h, if_neg h]
    simp [String.data_append, toString_digit _ hlt]

/-- C5, as stated, fails: `formatSize(1024)` is `"1 KB"`, not `"1.0 KB"`, and
`formatSize(1048576)` is `"1 MB"`, not `"1.0 MB"`; `parseFloat` drops the
trailing zero that `toFixed(1)` wrote, so no digit follows a decimal point. -/
theorem formatSize_one_decimal_counterexample :
    formatSize 1024 = "1 KB" ∧ formatSize 1024 ≠ "1.0 KB"
      ∧ formatSize 1048576 = "1 MB" ∧ formatSize 1048576 ≠ "1.0 MB" := by
  decide

/-- C5, amended: `formatSize` presents the base-1024 scaled value rounded to one
decimal place, a tie going up, and printed without a trailing `.0`:
`formatSize(0) = "0 B"`, `formatSize(1024) = "1 KB"`,
`formatSize(1536) = "1.5 KB"` and `formatSize(1048576) = "1 MB"`. For every
positive byte count below `1024^4`, with `1024^i` the greatest power of 1024
not above the count and `n` the integer nearest to `10 * bytes / 1024^i` (the
greater of the two on a tie), the text is the decimal numeral of `⌊n / 10⌋`,
then, only when `n mod 10` is not 0, a decimal point and the digit `n mod 10`,
then a space and the unit of index `i`. For every byte count and every index
`i`, the number printed for `bytes / 1024^i` is a non-empty run of decimal
digits followed either by nothing or by a decimal point and exactly one digit,
which is not `0`. -/
theorem formatSize_spec :
    formatSize 0 = "0 B"
      ∧ formatSize 1024 = "1 KB"
      ∧ formatSize 1536 = "1.5 KB"
      ∧ formatSize 1048576 = "1 MB"
      ∧ (∀ bytes : Nat, 0 < bytes → bytes < 1024 ^ 4 →
          ∃ (i n : Nat) (unit : String),
            UNITS[i]? = some unit
              ∧ 1024 ^ i ≤ bytes ∧ bytes < 1024 ^ (i + 1)
              ∧ 2 * n * 1024 ^ i ≤ 20 * bytes + 1024 ^ i
              ∧ 20 * bytes + 1024 ^ i < 2 * (n + 1) * 1024 ^ i
              ∧ (formatSize bytes).data
                  = (toString (n / 10)).data
                    ++ (if n % 10 = 0 then [] else ['.', Nat.digitChar (n % 10)])
                    ++ ' ' :: unit.data)
      ∧ (∀ bytes i : Nat,
          ∃ whole : List Char, whole ≠ [] ∧ (∀ c ∈ whole, c.isDigit = true)
            ∧ ((numberToString (toFixed1 bytes 1024 i)).data = whole
              ∨ ∃ d : Char, d.isDigit = true ∧ d ≠ '0'
                  ∧ (numberToString (toFixed1 bytes 1024 i)).data = whole ++ ['.', d])) := by
  refine ⟨by decide, by decide, by decide, by decide, ?_,
    fun bytes i => numberToString_shape (toFixed1 bytes 1024 i)⟩
  intro bytes hpos hlt
  have hne : bytes ≠ 0 := by omega
  obtain ⟨unit, hu⟩ := UNITS_getElem?_isSome _ (floorLog_lt_four bytes hpos hlt)
  refine ⟨floorLog 1024 bytes, toFixed1 bytes 1024 (floorLog 1024 bytes), unit, hu,
    (floorLog_bounds bytes hpos).1, (floorLog_bounds bytes hpos).2,
    (toFixed1_nearest bytes 1024 _ (by omega)).1,
    (toFixed1_nearest bytes 1024 _ (by omega)).2, ?_⟩
  unfold formatSize
  rw [if_neg hne]
  simp only [hu, Option.getD_some, String.data_append, numberToString_data]
  simp only [List.append_assoc, List.singleton_append]

/-! ## The queue -/

theorem validateFile_key (H : Host) (drawn : Nat) (file : File) :
    (validateFile H drawn file).result.key = file.key := by
  simp [FileRecord.key, File.key, validateFile_name, validateFile_size]

theorem sameFile_iff (file : File) (f : FileRecord) :
    sameFile file f = true ↔ f.key = file.key := by
  simp [sameFile, FileRecord.key, File.key]

theorem any_sameFile_iff (q : List FileRecord) (file : File) :
    q.any (sameFile file) = true ↔ file.key ∈ q.map FileRecord.key := by
  simp only [List.any_eq_true, List.mem_map, sameFile_iff]

theorem addFilesLoop_cons_skip (H : Host) (file : File) (rest : List File) (s : State)
    (c : Counts) (h : file.key ∈ s.fileQueue.map FileRecord.key) :
    addFilesLoop H (file :: rest) s c
      = addFilesLoop H rest s { c with skippedCount := c.skippedCount + 1 } := by
  rw [addFilesLoop]
  simp only [(any_sameFile_iff s.fileQueue file).2 h, if_true]

theorem addFilesLoop_cons_add (H : Host) (file : File) (rest : List File) (s : State)
    (c : Counts) (h : file.key ∉ s.fileQueue.map FileRecord.key) :
    ∃ c2, addFilesLoop H (file :: rest) s c
      = addFilesLoop H rest
          { fileQueue := s.fileQueue ++ [(validateFile H s.drawn file).result]
            drawn := s.drawn + 1 } c2 := by
  have hf : s.fileQueue.any (sameFile file) = false := by
    cases e : s.fileQueue.any (sameFile file) with
    | false => rfl
    | true => exact absurd ((any_sameFile_iff s.fileQueue file).1 e) h
  rw [addFilesLoop]
  simp only [hf, Bool.false_eq_true, if_false]
  exact ⟨_, rfl⟩

theorem addFilesLoop_keys (H : Host) (files : List File) (s : State) (c : Counts)
    (k : String × Nat) :
    k ∈ (addFilesLoop H files s c).1.fileQueue.map FileRecord.key
      ↔ k ∈ s.fileQueue.map FileRecord.key ∨ k ∈ files.map File.key := by
  induction files generalizing s c with
  | nil => simp [addFilesLoop]
  | cons file rest ih =>
    by_cases h : file.key ∈ s.fileQueue.map FileRecord.key
    · rw [addFilesLoop_cons_skip H file rest s c h, ih]
      constructor
      · rintro (h1 | h1)
        · exact Or.inl h1
        · exact Or.inr (by simp [h1])
      · rintro (h1 | h1)
        · exact Or.inl h1
        · rcases List.mem_map.1 h1 with ⟨g, hg, rfl⟩
          rcases List.mem_cons.1 hg with e | e
          · subst e
            exact Or.inl h
          · exact Or.inr (List.mem_map.2 ⟨g, e, rfl⟩)
    · obtain ⟨c2, hc2⟩ := addFilesLoop_cons_add H file rest s c h
      rw [hc2, ih]
      simp only [List.map_append, List.map_cons, List.map_nil, List.mem_append,
        List.mem_singleton, validateFile_key, List.mem_cons]
      tauto

theorem addFilesLoop_eq (H : Host) (q : List FileRecord) (files earlier : List File)
    (s : State) (c : Counts)
    (hkeys : ∀ k, k ∈ s.fileQueue.map FileRecord.key
      ↔ k ∈ q.map FileRecord.key ++ earlier.map File.key) :
    (addFilesLoop H files s c).1.fileQueue
        = s.fileQueue ++ validateAll H s.drawn (keptAfter q earlier files)
      ∧ (addFilesLoop H files s c).1.drawn
        = s.drawn + (keptAfter q earlier files).length := by
  induction files generalizing earlier s c with
  | nil => simp [addFilesLoop, keptAfter, validateAll]
  | cons file rest ih =>
    by_cases h : file.key ∈ s.fileQueue.map FileRecord.key
    · have hq : file.key ∈ q.map FileRecord.key ++ earlier.map File.key := (hkeys _).1 h
      rw [addFilesLoop_cons_skip H file rest s c h, keptAfter, if_pos hq]
      apply ih
      intro k
      rw [hkeys k]
      simp only [List.map_append, List.map_cons, List.map_nil, List.mem_append,
        List.mem_singleton]
      constructor
      · rintro (h1 | h1)
        · exact Or.inl h1
        · exact Or.inr (Or.inl h1)
      · rintro (h1 | h1 | h1)
        · exact Or.inl h1
        · exact Or.inr h1
        · rw [h1]
          exact List.mem_append.1 hq
    · have hq : file.key ∉ q.map FileRecord.key ++ earlier.map File.key :=
        fun e => h ((hkeys _).2 e)
      obtain ⟨c2, hc2⟩ := addFilesLoop_cons_add H file rest s c h
      rw [hc2, keptAfter, if_neg hq]
      have hstep := ih (earlier ++ [file])
        { fileQueue := s.fileQueue ++ [(validateFile H s.drawn file).result]
          drawn := s.drawn + 1 } c2 (by
          intro k
          simp only [List.map_append, List.map_cons, List.map_nil, List.mem_append,
            List.mem_singleton, validateFile_key]
          have := hkeys k
          simp only [List.mem_append] at this
          tauto)
      rw [hstep.1, hstep.2]
      constructor
      · simp [validateAll]
      · simp only [List.length_cons]
        omega

theorem addFilesLoop_nodup (H : Host) (files : List File) (s : State) (c : Counts)
    (h : (s.fileQueue.map FileRecord.key).Nodup) :
    ((addFilesLoop H files s c).1.fileQueue.map FileRecord.key).Nodup := by
  induction files generalizing s c with
  | nil => simpa [addFilesLoop] using h
  | cons file rest ih =>
    by_cases hk : file.key ∈ s.fileQueue.map FileRecord.key
    · rw [addFilesLoop_cons_skip H file rest s c hk]
      exact ih s _ h
    · obtain ⟨c2, hc2⟩ := addFilesLoop_cons_add H file rest s c hk
      rw [hc2]
      apply ih
      simp only [List.map_append, List.map_cons, List.map_nil, validateFile_key]
      rw [List.nodup_append]
      refine ⟨h, List.nodup_singleton _, ?_⟩
      intro k hk1 hk2
      rw [List.mem_singleton.1 hk2] at hk1
      exact hk hk1

theorem addFiles_fst (H : Host) (fileList : List File) (s : State) :
    (addFiles H fileList s).1 = (addFilesLoop H fileList s ⟨0, 0, 0⟩).1 := by
  unfold addFiles
  cases fileList with
  | nil => simp [addFilesLoop]
  | cons f rest => simp

theorem apply_nodup (H : Host) (s : State) (op : Op)
    (h : (s.fileQueue.map FileRecord.key).Nodup) :
    ((op.apply H s).fileQueue.map FileRecord.key).Nodup := by
  cases op with
  | addFiles fileList =>
    simp only [Op.apply, addFiles_fst]
    exact addFilesLoop_nodup H fileList s _ h
  | removeFile id =>
    simp only [Op.apply, removeFile]
    exact (List.Sublist.map _ (List.filter_sublist _)).nodup h
  | clearQueue =>
    simp [Op.apply, clearQueue]

theorem run_nodup (H : Host) (ops : List Op) (s : State)
    (h : (s.fileQueue.map FileRecord.key).Nodup) :
    ((run H ops s).fileQueue.map FileRecord.key).Nodup := by
  induction ops generalizing s with
  | nil => simpa [run] using h
  | cons op rest ih =>
    simp only [run, List.foldl_cons]
    exact ih _ (apply_nodup H s op h)

/-- C1: starting from the empty queue, after any sequence of `addFiles`,
`removeFile` and `clearQueue` calls, each run to completion, no two records of
the queue have the same `(name, size)`; the batches are arbitrary lists of
handles, so a batch may itself repeat a name and size. -/
theorem queue_no_duplicate_keys (H : Host) (ops : List Op) :
    (run H ops State.initial).fileQueue.Pairwise
      (fun a b => ¬ (a.name = b.name ∧ a.size = b.size)) := by
  have h := run_nodup H ops State.initial (by simp [State.initial])
  rw [List.Nodup, List.pairwise_map] at h
  refine h.imp ?_
  intro a b hab hnm
  apply hab
  simp [FileRecord.key, hnm.1, hnm.2]

/-- C2: `addFiles` leaves the old queue, unchanged and in the same order,
followed by one validated record per non-skipped handle in batch order, whatever
the record's status, and draws one identifier per validation, none for a skipped
handle; the test made when the walk reaches a handle (against the queue at that
moment) succeeds exactly when the handle's `(name, size)` is that of an original
record or of an earlier handle of the batch; adding the same `(name, size)`
twice to the empty queue leaves a queue of length 1. -/
theorem addFiles_spec (H : Host) (fileList : List File) (s : State) :
    (addFiles H fileList s).1.fileQueue
        = s.fileQueue ++ validateAll H s.drawn (nonSkipped s.fileQueue fileList)
      ∧ (addFiles H fileList s).1.drawn
        = s.drawn + (nonSkipped s.fileQueue fileList).length
      ∧ (∀ (earlier : List File) (f : File) (later : List File),
          fileList = earlier ++ f :: later →
          ((addFiles H earlier s).1.fileQueue.any (sameFile f) = true
            ↔ (f.key ∈ s.fileQueue.map FileRecord.key ∨ f.key ∈ earlier.map File.key)))
      ∧ (∀ f g : File, f.name = g.name → f.size = g.size →
          (addFiles H [f, g] State.initial).1.fileQueue.length = 1
            ∧ (addFiles H [f] (addFiles H [g] State.initial).1).1.fileQueue.length = 1) := by
  refine ⟨?_, ?_, ?_, ?_⟩
  · rw [addFiles_fst]
    exact (addFilesLoop_eq H s.fileQueue fileList [] s _ (by simp)).1
  · rw [addFiles_fst]
    exact (addFilesLoop_eq H s.fileQueue fileList [] s _ (by simp)).2
  · intro earlier f later _
    rw [addFiles_fst, any_sameFile_iff, addFilesLoop_keys]
  · intro f g hn hs
    have hk : f.key = g.key := by simp [File.key, hn, hs]
    constructor
    · rw [addFiles_fst,
        (addFilesLoop_eq H [] [f, g] [] State.initial _ (by simp [State.initial])).1]
      simp [State.initial, keptAfter, validateAll, hk]
    · rw [addFiles_fst, addFiles_fst]
      have hq := (addFilesLoop_eq H [] [g] [] State.initial ⟨0, 0, 0⟩
        (by simp [State.initial])).1
      have hq1 : (addFilesLoop H [g] State.initial ⟨0, 0, 0⟩).1.fileQueue
          = [(validateFile H 0 g).result] := by
        rw [hq]
        simp [State.initial, keptAfter, validateAll]
      have hmem : f.key ∈ List.map FileRecord.key
          (addFilesLoop H [g] State.initial ⟨0, 0, 0⟩).1.fileQueue := by
        rw [hq1]
        simp [validateFile_key, hk]
      rw [addFilesLoop_cons_skip H f [] _ _ hmem, addFilesLoop, hq1]
      rfl

/-! ## The unit of a size -/

/-- C11: for a positive byte count below `1024^4` the unit printed is the entry
of `B, KB, MB, GB` with the greatest index `i` such that `1024^i` is at most
the count; at `1024^4` bytes and at 2 TiB the index is 4, `units[4]` is
`undefined`, and no unit is printed: the text is `"1 undefined"` and
`"2 undefined"`. -/
theorem formatSize_unit :
    (∀ bytes : Nat, 0 < bytes → bytes < 1024 ^ 4 →
        ∃ (i : Nat) (unit : String), UNITS[i]? = some unit
          ∧ 1024 ^ i ≤ bytes ∧ bytes < 1024 ^ (i + 1)
          ∧ formatSize bytes = numberToString (toFixed1 bytes 1024 i) ++ " " ++ unit)
      ∧ formatSize (1024 ^ 4) = "1 undefined"
      ∧ formatSize 2199023255552 = "2 undefined" := by
  refine ⟨?_, by decide, by decide⟩
  intro bytes hpos hlt
  obtain ⟨unit, hu⟩ := UNITS_getElem?_isSome _ (floorLog_lt_four bytes hpos hlt)
  refine ⟨floorLog 1024 bytes, unit, hu, (floorLog_bounds bytes hpos).1,
    (floorLog_bounds bytes hpos).2, ?_⟩
  have hne : bytes ≠ 0 := by omega
  unfold formatSize
  rw [if_neg hne]
  simp only [hu, Option.getD_some]

/-! ## The comment of `countLines` -/

/-- C12: `countLines` adds 1 to the number of line feeds of every non-empty
text, also of one that ends with a line feed: `"a\n"` has one line feed and is
counted as 2 lines, `"a\nb\n"` has two and is counted as 3. -/
theorem countLines_trailing_newline :
    (∀ text : String, text ≠ "" → countLines text = text.data.count '\n' + 1)
      ∧ "a\n".data.count '\n' = 1 ∧ countLines "a\n" = 2
      ∧ "a\nb\n".data.count '\n' = 2 ∧ countLines "a\nb\n" = 3 := by
  refine ⟨?_, by decide, by decide, by decide, by decide⟩
  intro text h
  rw [countLines_eq, if_neg h]

/-! ## Overlapping invocations of `addFiles` -/

theorem runAlone_none (H : Host) (fuel : Nat) (s : State) :
    runAlone H fuel (s, none) = s := by
  cases fuel <;> rfl

theorem scan_cons_skip (H : Host) (file : File) (rest : List File) (s : State)
    (h : file.key ∈ s.fileQueue.map FileRecord.key) :
    scan H (file :: rest) s = scan H rest s := by
  rw [scan]
  simp only [(any_sameFile_iff s.fileQueue file).2 h, if_true]

theorem scan_cons_start (H : Host) (file : File) (rest : List File) (s : State)
    (h : file.key ∉ s.fileQueue.map FileRecord.key) :
    scan H (file :: rest) s
      = ({ s with drawn := s.drawn + 1 },
          some { pending := (validateFile H s.drawn file).result, rest := rest }) := by
  have hf : s.fileQueue.any (sameFile file) = false := by
    cases e : s.fileQueue.any (sameFile file) with
    | false => rfl
    | true => exact absurd ((any_sameFile_iff s.fileQueue file).1 e) h
  rw [scan]
  simp only [hf, Bool.false_eq_true, if_false]

/-- An invocation that no other invocation overlaps does what the loop of
`addFiles` does when each iteration is run to completion. -/
theorem runAlone_scan (H : Host) (files : List File) (fuel : Nat) (s : State) (c : Counts)
    (hfuel : files.length ≤ fuel) :
    runAlone H fuel (scan H files s) = (addFilesLoop H files s c).1 := by
  induction files generalizing fuel s c with
  | nil => simp [scan, runAlone_none, addFilesLoop]
  | cons file rest ih =>
    by_cases h : file.key ∈ s.fileQueue.map FileRecord.key
    · rw [scan_cons_skip H file rest s h, addFilesLoop_cons_skip H file rest s c h]
      exact ih fuel s _ (by simp only [List.length_cons] at hfuel; omega)
    · obtain ⟨c2, hc2⟩ := addFilesLoop_cons_add H file rest s c h
      rw [scan_cons_start H file rest s h, hc2]
      cases fuel with
      | zero => simp at hfuel
      | succ k =>
        rw [runAlone, resume]
        exact ih k _ c2 (by simp only [List.length_cons] at hfuel; omega)

theorem overlap_same_file (H : Host) (s : State) (file : File)
    (h : file.key ∉ s.fileQueue.map FileRecord.key) :
    Page.run H [Event.call [file], Event.call [file], Event.settle 0, Event.settle 0]
        ⟨s, []⟩
      = ⟨{ fileQueue := s.fileQueue ++ [(validateFile H s.drawn file).result,
            (validateFile H (s.drawn + 1) file).result]
           drawn := s.drawn + 2 }, []⟩ := by
  have hf : s.fileQueue.any (sameFile file) = false := by
    cases e : s.fileQueue.any (sameFile file) with
    | false => rfl
    | true => exact absurd ((any_sameFile_iff s.fileQueue file).1 e) h
  simp only [Page.run, List.foldl_cons, List.foldl_nil, Page.step, scan, hf,
    Bool.false_eq_true, if_false, List.nil_append, List.cons_append,
    List.getElem?_cons_zero, resume, List.eraseIdx_cons_zero, List.append_assoc]

/-- C13: two invocations of `addFiles` on the same handle, the second called
while the first is suspended in `validateFile`: whatever the queue, when it has
no record of the handle's `(name, size)` each invocation finds none, validates
the handle and pushes its record, and the queue ends with two records of that
`(name, size)`. For a non-empty Python file, whose validation suspends in both
reads, the queue built from the empty one holds `(main.py, 2)` twice. -/
theorem overlapping_addFiles_duplicate :
    (∀ (H : Host) (s : State) (file : File),
        file.key ∉ s.fileQueue.map FileRecord.key →
        (Page.run H [Event.call [file], Event.call [file], Event.settle 0, Event.settle 0]
            ⟨s, []⟩).state.fileQueue.map FileRecord.key
          = s.fileQueue.map FileRecord.key ++ [file.key, file.key])
      ∧ (validateFile Host.ascii 0 ⟨"main.py", 2, some [97, 10], some "a\n"⟩).reads
        = [Read.sliceArrayBuffer, Read.text]
      ∧ (Page.run Host.ascii
          [Event.call [⟨"main.py", 2, some [97, 10], some "a\n"⟩],
            Event.call [⟨"main.py", 2, some [97, 10], some "a\n"⟩],
            Event.settle 0, Event.settle 0]
          ⟨State.initial, []⟩).tasks = []
      ∧ (Page.run Host.ascii
          [Event.call [⟨"main.py", 2, some [97, 10], some "a\n"⟩],
            Event.call [⟨"main.py", 2, some [97, 10], some "a\n"⟩],
            Event.settle 0, Event.settle 0]
          ⟨State.initial, []⟩).state.fileQueue.map FileRecord.key
        = [("main.py", 2), ("main.py", 2)]
      ∧ ¬ (Page.run Host.ascii
          [Event.call [⟨"main.py", 2, some [97, 10], some "a\n"⟩],
            Event.call [⟨"main.py", 2, some [97, 10], some "a\n"⟩],
            Event.settle 0, Event.settle 0]
          ⟨State.initial, []⟩).state.fileQueue.Pairwise
            (fun a b => ¬ (a.name = b.name ∧ a.size = b.size)) := by
  refine ⟨?_, by decide, by decide, by decide, by decide⟩
  intro H s file h
  rw [overlap_same_file H s file h]
  simp [validateFile_key]

/-! ## The counters of `addFiles` -/

theorem addFilesLoop_cons_add_counts (H : Host) (file : File) (rest : List File)
    (s : State) (c : Counts) (h : file.key ∉ s.fileQueue.map FileRecord.key) :
    addFilesLoop H (file :: rest) s c
      = addFilesLoop H rest
          { fileQueue := s.fileQueue ++ [(validateFile H s.drawn file).result]
            drawn := s.drawn + 1 }
          { addedCount := c.addedCount + 1
            skippedCount := c.skippedCount
            invalidCount := c.invalidCount
              + (if (validateFile H s.drawn file).result.status = Status.invalid then 1
                else 0) } := by
  have hf : s.fileQueue.any (sameFile file) = false := by
    cases e : s.fileQueue.any (sameFile file) with
    | false => rfl
    | true => exact absurd ((any_sameFile_iff s.fileQueue file).1 e) h
  rw [addFilesLoop]
  simp only [hf, Bool.false_eq_true, if_false]
  split <;> rfl

theorem invalidFiles_cons (r : FileRecord) (q : List FileRecord) :
    (invalidFiles (r :: q)).length
      = (if r.status = Status.invalid then 1 else 0) + (invalidFiles q).length := by
  unfold invalidFiles
  by_cases h : r.status = Status.invalid
  · simp [List.filter_cons, h]
    omega
  · simp [List.filter_cons, h]

theorem addFilesLoop_counts (H : Host) (files : List File) (s : State) (c : Counts) :
    ∃ appended : List FileRecord,
      (addFilesLoop H files s c).1.fileQueue = s.fileQueue ++ appended
        ∧ (addFilesLoop H files s c).2.addedCount = c.addedCount + appended.length
        ∧ (addFilesLoop H files s c).2.addedCount + (addFilesLoop H files s c).2.skippedCount
            = c.addedCount + c.skippedCount + files.length
        ∧ (addFilesLoop H files s c).2.invalidCount
            = c.invalidCount + (invalidFiles appended).length := by
  induction files generalizing s c with
  | nil => exact ⟨[], by simp [addFilesLoop, invalidFiles]⟩
  | cons file rest ih =>
    by_cases h : file.key ∈ s.fileQueue.map FileRecord.key
    · rw [addFilesLoop_cons_skip H file rest s c h]
      obtain ⟨appended, h1, h2, h3, h4⟩ :=
        ih s { c with skippedCount := c.skippedCount + 1 }
      refine ⟨appended, h1, h2, ?_, h4⟩
      rw [h3]
      simp only [List.length_cons]
      omega
    · rw [addFilesLoop_cons_add_counts H file rest s c h]
      obtain ⟨appended, h1, h2, h3, h4⟩ := ih
        { fileQueue := s.fileQueue ++ [(validateFile H s.drawn file).result]
          drawn := s.drawn + 1 }
        { addedCount := c.addedCount + 1
          skippedCount := c.skippedCount
          invalidCount := c.invalidCount
            + (if (validateFile H s.drawn file).result.status = Status.invalid then 1
              else 0) }
      refine ⟨(validateFile H s.drawn file).result :: appended, ?_, ?_, ?_, ?_⟩
      · rw [h1]
        simp
      · rw [h2]
        simp only [List.length_cons]
        omega
      · rw [h3]
        simp only [List.length_cons]
        omega
      · rw [h4, invalidFiles_cons]
        dsimp only
        omega

theorem filter_status_length (q : List FileRecord) :
    (validFiles q).length + (warningFiles q).length + (invalidFiles q).length = q.length := by
  induction q with
  | nil => rfl
  | cons r q ih =>
    unfold validFiles warningFiles invalidFiles at ih ⊢
    cases hs : r.status <;> simp [List.filter_cons, hs] <;> omega

/-- C14: for a non-empty batch, `addedCount + skippedCount` is the number of
handles, the queue grows by `addedCount` records, and `invalidCount` is the
number of records appended by the call whose status is `invalid`, hence at most
`addedCount`; the appended records of status `valid` or `warning` make up
`addedCount - invalidCount`. -/
theorem addFiles_counts (H : Host) (fileList : List File) (s : State)
    (hne : fileList ≠ []) :
    (addFiles H fileList s).2.addedCount + (addFiles H fileList s).2.skippedCount
        = fileList.length
      ∧ (addFiles H fileList s).1.fileQueue.length
        = s.fileQueue.length + (addFiles H fileList s).2.addedCount
      ∧ (addFiles H fileList s).1.fileQueue.take s.fileQueue.length = s.fileQueue
      ∧ (addFiles H fileList s).2.invalidCount
        = (invalidFiles ((addFiles H fileList s).1.fileQueue.drop s.fileQueue.length)).length
      ∧ (addFiles H fileList s).2.invalidCount ≤ (addFiles H fileList s).2.addedCount
      ∧ (addFiles H fileList s).2.addedCount - (addFiles H fileList s).2.invalidCount
        = (validFiles ((addFiles H fileList s).1.fileQueue.drop s.fileQueue.length)).length
          + (warningFiles
              ((addFiles H fileList s).1.fileQueue.drop s.fileQueue.length)).length := by
  have hlen : fileList.length ≠ 0 := fun e => hne (List.length_eq_zero.1 e)
  have hadd : addFiles H fileList s = addFilesLoop H fileList s ⟨0, 0, 0⟩ := by
    unfold addFiles
    simp only [hlen, if_false]
  obtain ⟨appended, h1, h2, h3, h4⟩ := addFilesLoop_counts H fileList s ⟨0, 0, 0⟩
  have hsum := filter_status_length appended
  simp only [Nat.zero_add] at h2 h3 h4
  rw [hadd, h1, h4]
  rw [h2] at h3 ⊢
  simp only [List.length_append, List.take_left', List.drop_left']
  refine ⟨h3, trivial, trivial, trivial, by omega, by omega⟩

/-- A batch of a Python file, a text file and the Python file again: two
handles are added, one of them invalid, and one is skipped. -/
theorem addFiles_counts_witness :
    (addFiles Host.ascii
        [⟨"a.py", 2, some [97, 10], some "a\n"⟩, ⟨"notes.txt", 2, some [104, 105], some "hi"⟩,
          ⟨"a.py", 2, some [97, 10], some "a\n"⟩] State.initial).2.addedCount
      + (addFiles Host.ascii
        [⟨"a.py", 2, some [97, 10], some "a\n"⟩, ⟨"notes.txt", 2, some [104, 105], some "hi"⟩,
          ⟨"a.py", 2, some [97, 10], some "a\n"⟩] State.initial).2.skippedCount = 3
    ∧ (addFiles Host.ascii
        [⟨"a.py", 2, some [97, 10], some "a\n"⟩, ⟨"notes.txt", 2, some [104, 105], some "hi"⟩,
          ⟨"a.py", 2, some [97, 10], some "a\n"⟩] State.initial).2.invalidCount
      ≤ (addFiles Host.ascii
        [⟨"a.py", 2, some [97, 10], some "a\n"⟩, ⟨"notes.txt", 2, some [104, 105], some "hi"⟩,
          ⟨"a.py", 2, some [97, 10], some "a\n"⟩] State.initial).2.addedCount :=
  ⟨(addFiles_counts Host.ascii
      [⟨"a.py", 2, some [97, 10], some "a\n"⟩, ⟨"notes.txt", 2, some [104, 105], some "hi"⟩,
        ⟨"a.py", 2, some [97, 10], some "a\n"⟩] State.initial (List.cons_ne_nil _ _)).1,
   (addFiles_counts Host.ascii
      [⟨"a.py", 2, some [97, 10], some "a\n"⟩, ⟨"notes.txt", 2, some [104, 105], some "hi"⟩,
        ⟨"a.py", 2, some [97, 10], some "a\n"⟩] State.initial
      (List.cons_ne_nil _ _)).2.2.2.2.1⟩

/-! ## The six outcomes of `validateFile` -/

theorem validateFile_file (H : Host) (drawn : Nat) (file : File) :
    (validateFile H drawn file).result.file = file := by
  unfold validateFile
  dsimp only
  split_ifs <;> (try split) <;> (try split_ifs) <;> rfl

theorem detectLanguage_eq_none (H : Host) (filename : String)
    (h : getExtension H filename ∉ ALLOWED_EXTENSIONS) :
    detectLanguage H filename = none := by
  simp only [ALLOWED_EXTENSIONS, List.mem_cons, List.mem_singleton, List.mem_nil_iff,
    or_false, not_or] at h
  obtain ⟨h1, h2, h3, h4⟩ := h
  have e1 : ¬ ".py" = getExtension H filename := fun e => h1 e.symm
  have e2 : ¬ ".java" = getExtension H filename := fun e => h2 e.symm
  have e3 : ¬ ".js" = getExtension H filename := fun e => h3 e.symm
  have e4 : ¬ ".cpp" = getExtension H filename := fun e => h4 e.symm
  simp [detectLanguage, EXTENSION_LANG_MAP, langLookup, e1, e2, e3, e4]

/-- The outcome of `validateFile`, stage by stage. -/
theorem validateFile_cases (H : Host) (drawn : Nat) (file : File) :
    (getExtension H file.name ∉ ALLOWED_EXTENSIONS
        ∧ (validateFile H drawn file).result.status = Status.invalid
        ∧ (validateFile H drawn file).result.statusLabel = "Unsupported"
        ∧ (validateFile H drawn file).result.language = none
        ∧ (validateFile H drawn file).result.lines = 0)
      ∨ (getExtension H file.name ∈ ALLOWED_EXTENSIONS
        ∧ (validateFile H drawn file).result.language = detectLanguage H file.name
        ∧ ((file.size = 0
            ∧ (validateFile H drawn file).result.status = Status.warning
            ∧ (validateFile H drawn file).result.statusLabel = "Empty"
            ∧ (validateFile H drawn file).result.lines = 0)
          ∨ (file.size ≠ 0
            ∧ (validateFile H drawn file).result.status = Status.invalid
            ∧ (validateFile H drawn file).result.statusLabel = "Binary"
            ∧ (validateFile H drawn file).result.lines = 0)
          ∨ (file.size ≠ 0
            ∧ (validateFile H drawn file).result.status = Status.invalid
            ∧ (validateFile H drawn file).result.statusLabel = "Unreadable"
            ∧ (validateFile H drawn file).result.lines = 0
            ∧ file.text = none)
          ∨ (file.size ≠ 0
            ∧ (validateFile H drawn file).result.status = Status.warning
            ∧ (validateFile H drawn file).result.statusLabel = "Too Large"
            ∧ ∃ t, file.text = some t
                ∧ (validateFile H drawn file).result.lines = countLines t
                ∧ countLines t > MAX_LINES)
          ∨ (file.size ≠ 0
            ∧ (validateFile H drawn file).result.status = Status.valid
            ∧ (validateFile H drawn file).result.statusLabel = "Ready"
            ∧ ∃ t, file.text = some t
                ∧ (validateFile H drawn file).result.lines = countLines t
                ∧ countLines t ≤ MAX_LINES))) := by
  by_cases hext : getExtension H file.name ∈ ALLOWED_EXTENSIONS
  · right
    by_cases hsize : file.size = 0
    · rw [validateFile_empty_eq H drawn file hext hsize]
      exact ⟨hext, rfl, Or.inl ⟨hsize, rfl, rfl, rfl⟩⟩
    · by_cases hbin : ∃ buffer, file.sliceArrayBuffer 0 BINARY_CHECK_SIZE = some buffer
          ∧ isBinary buffer = true
      · obtain ⟨buffer, hs, hb⟩ := hbin
        rw [validateFile_binary_eq H drawn file buffer hext hsize hs hb]
        exact ⟨hext, rfl, Or.inr (Or.inl ⟨hsize, rfl, rfl, rfl⟩)⟩
      · have hclean : ∀ buffer, file.sliceArrayBuffer 0 BINARY_CHECK_SIZE = some buffer →
            isBinary buffer = false := by
          intro buffer hs
          cases hb : isBinary buffer with
          | false => rfl
          | true => exact absurd ⟨buffer, hs, hb⟩ hbin
        rw [validateFile_text_eq H drawn file hext hsize hclean]
        cases ht : file.text with
        | none =>
          exact ⟨hext, rfl, Or.inr (Or.inr (Or.inl ⟨hsize, rfl, rfl, rfl, rfl⟩))⟩
        | some t =>
          simp only
          split
          · rename_i hl
            exact ⟨hext, rfl,
              Or.inr (Or.inr (Or.inr (Or.inl ⟨hsize, rfl, rfl, t, rfl, rfl, hl⟩)))⟩
          · rename_i hl
            exact ⟨hext, rfl,
              Or.inr (Or.inr (Or.inr (Or.inr
                ⟨hsize, rfl, rfl, t, rfl, rfl, Nat.le_of_not_gt hl⟩)))⟩
  · left
    rw [validateFile_unsupported_eq H drawn file hext]
    exact ⟨hext, rfl, rfl, rfl, rfl⟩

theorem langLookup_mem (ext : String) (m : List (String × Language)) (l : Language)
    (h : langLookup ext m = some l) : (ext, l) ∈ m := by
  induction m with
  | nil => simp [langLookup] at h
  | cons kv rest ih =>
    obtain ⟨k, v⟩ := kv
    rw [langLookup] at h
    by_cases hk : k = ext
    · rw [if_pos hk] at h
      simp only [Option.some.injEq] at h
      subst hk h
      exact List.mem_cons_self _ _
    · rw [if_neg hk] at h
      exact List.mem_cons_of_mem _ (ih h)

theorem detectLanguage_eq_langLookup (H : Host) (filename : String) :
    detectLanguage H filename = langLookup (getExtension H filename) EXTENSION_LANG_MAP := by
  unfold detectLanguage
  dsimp only
  split
  · rename_i l h
    exact h.symm
  · rename_i h
    exact h.symm

/-- C16: for a filename whose extension is in `ALLOWED_EXTENSIONS`,
`detectLanguage` returns the descriptor that `EXTENSION_LANG_MAP` holds for
that extension; for every other filename it returns `null`; the language of a
record returned by `validateFile` is `null` exactly when its label is
"Unsupported". -/
theorem detectLanguage_spec (H : Host) :
    (∀ filename : String, getExtension H filename ∈ ALLOWED_EXTENSIONS →
        ∃ l : Language, detectLanguage H filename = some l
          ∧ (getExtension H filename, l) ∈ EXTENSION_LANG_MAP)
      ∧ (∀ filename : String, getExtension H filename ∉ ALLOWED_EXTENSIONS →
        detectLanguage H filename = none)
      ∧ (∀ (drawn : Nat) (file : File),
        (validateFile H drawn file).result.language = none
          ↔ (validateFile H drawn file).result.statusLabel = "Unsupported") := by
  refine ⟨?_, detectLanguage_eq_none H, ?_⟩
  · intro filename h
    obtain ⟨l, hl⟩ := detectLanguage_isSome H filename h
    refine ⟨l, hl, langLookup_mem _ _ _ ?_⟩
    rw [← detectLanguage_eq_langLookup, hl]
  · intro drawn file
    rcases validateFile_cases H drawn file with
      ⟨_, _, hlabel, hlang, _⟩ | ⟨hext, hlang, hrest⟩
    · rw [hlabel, hlang]
      simp
    · obtain ⟨l, hl⟩ := detectLanguage_isSome H file.name hext
      rw [hlang, hl]
      rcases hrest with ⟨_, _, h, _⟩ | ⟨_, _, h, _⟩ | ⟨_, _, h, _⟩ | ⟨_, _, h, _⟩
        | ⟨_, _, h, _⟩ <;> rw [h] <;> simp

theorem validateFile_status_label (H : Host) (drawn : Nat) (file : File) :
    ((validateFile H drawn file).result.statusLabel = "Ready"
        ↔ (validateFile H drawn file).result.status = Status.valid)
      ∧ (((validateFile H drawn file).result.statusLabel = "Empty"
          ∨ (validateFile H drawn file).result.statusLabel = "Too Large")
        ↔ (validateFile H drawn file).result.status = Status.warning)
      ∧ (((validateFile H drawn file).result.statusLabel = "Unsupported"
          ∨ (validateFile H drawn file).result.statusLabel = "Binary"
          ∨ (validateFile H drawn file).result.statusLabel = "Unreadable")
        ↔ (validateFile H drawn file).result.status = Status.invalid)
      ∧ (validateFile H drawn file).result.statusLabel
          ∈ ["Ready", "Empty", "Too Large", "Unsupported", "Binary", "Unreadable"] := by
  rcases validateFile_cases H drawn file with
    ⟨_, hs, hl, _, _⟩ | ⟨_, _, hrest⟩
  · rw [hs, hl]
    decide
  · rcases hrest with ⟨_, hs, hl, _⟩ | ⟨_, hs, hl, _⟩ | ⟨_, hs, hl, _⟩ | ⟨_, hs, hl, _⟩
      | ⟨_, hs, hl, _⟩ <;> rw [hs, hl] <;> decide

theorem validateAll_mem (H : Host) (files : List File) (drawn : Nat) (r : FileRecord)
    (h : r ∈ validateAll H drawn files) :
    ∃ d file, r = (validateFile H d file).result := by
  induction files generalizing drawn with
  | nil => simp [validateAll] at h
  | cons f rest ih =>
    rw [validateAll] at h
    rcases List.mem_cons.1 h with e | e
    · exact ⟨drawn, f, e⟩
    · exact ih _ e

/-- Every record of a queue built from the empty queue was returned by
`validateFile`. -/
theorem run_mem (H : Host) (ops : List Op) (s : State) (r : FileRecord)
    (h : r ∈ (run H ops s).fileQueue) :
    r ∈ s.fileQueue ∨ ∃ d file, r = (validateFile H d file).result := by
  induction ops generalizing s with
  | nil => exact Or.inl h
  | cons op rest ih =>
    simp only [run, List.foldl_cons] at h
    rcases ih (op.apply H s) h with h1 | h1
    · cases op with
      | addFiles fileList =>
        simp only [Op.apply, addFiles_fst] at h1
        rw [(addFilesLoop_eq H s.fileQueue fileList [] s _ (by simp)).1] at h1
        rcases List.mem_append.1 h1 with h2 | h2
        · exact Or.inl h2
        · exact Or.inr (validateAll_mem H _ _ r h2)
      | removeFile id =>
        simp only [Op.apply, removeFile] at h1
        exact Or.inl (List.mem_filter.1 h1).1
      | clearQueue =>
        simp [Op.apply, clearQueue] at h1
    · exact Or.inr h1

theorem run_initial_mem (H : Host) (ops : List Op) (r : FileRecord)
    (h : r ∈ (run H ops State.initial).fileQueue) :
    ∃ d file, r = (validateFile H d file).result := by
  rcases run_mem H ops State.initial r h with h1 | h1
  · simp [State.initial] at h1
  · exact h1

/-- C17: every record `validateFile` returns has status `valid`, `warning` or
`invalid`, fixed by its label: "Ready" exactly for `valid`; "Empty" or
"Too Large" exactly for `warning`; "Unsupported", "Binary" or "Unreadable"
exactly for `invalid`; there is no other label. In every queue built by the
queue operations from the empty queue the records obey the same table, and the
valid, warning and invalid counts of `renderQueue` add up to the queue length. -/
theorem status_label_spec (H : Host) :
    (∀ (drawn : Nat) (file : File),
        ((validateFile H drawn file).result.status = Status.valid
          ∨ (validateFile H drawn file).result.status = Status.warning
          ∨ (validateFile H drawn file).result.status = Status.invalid)
        ∧ ((validateFile H drawn file).result.statusLabel = "Ready"
          ↔ (validateFile H drawn file).result.status = Status.valid)
        ∧ (((validateFile H drawn file).result.statusLabel = "Empty"
            ∨ (validateFile H drawn file).result.statusLabel = "Too Large")
          ↔ (validateFile H drawn file).result.status = Status.warning)
        ∧ (((validateFile H drawn file).result.statusLabel = "Unsupported"
            ∨ (validateFile H drawn file).result.statusLabel = "Binary"
            ∨ (validateFile H drawn file).result.statusLabel = "Unreadable")
          ↔ (validateFile H drawn file).result.status = Status.invalid)
        ∧ (validateFile H drawn file).result.statusLabel
            ∈ ["Ready", "Empty", "Too Large", "Unsupported", "Binary", "Unreadable"])
      ∧ (∀ (ops : List Op), ∀ r ∈ (run H ops State.initial).fileQueue,
        (r.statusLabel = "Ready" ↔ r.status = Status.valid)
          ∧ ((r.statusLabel = "Empty" ∨ r.statusLabel = "Too Large")
            ↔ r.status = Status.warning)
          ∧ ((r.statusLabel = "Unsupported" ∨ r.statusLabel = "Binary"
              ∨ r.statusLabel = "Unreadable") ↔ r.status = Status.invalid))
      ∧ (∀ (ops : List Op),
        (validFiles (run H ops State.initial).fileQueue).length
          + (warningFiles (run H ops State.initial).fileQueue).length
          + (invalidFiles (run H ops State.initial).fileQueue).length
          = (run H ops State.initial).fileQueue.length) := by
  refine ⟨?_, ?_, fun ops => filter_status_length _⟩
  · intro drawn file
    refine ⟨?_, validateFile_status_label H drawn file⟩
    cases (validateFile H drawn file).result.status
    · exact Or.inl rfl
    · exact Or.inr (Or.inr rfl)
    · exact Or.inr (Or.inl rfl)
  · intro ops r hr
    obtain ⟨d, file, rfl⟩ := run_initial_mem H ops r hr
    obtain ⟨h1, h2, h3, _⟩ := validateFile_status_label H d file
    exact ⟨h1, h2, h3⟩

/-- C18: a record that `validateFile` returns with status `valid` carries the
handle's own name and size, a size other than 0, a non-null language, an
extension in the allow-list, and a line count that is `countLines` of the text
read and at most 10000; every record the scan button hands on, from a queue
built by the queue operations, has status `valid` and satisfies these bounds. -/
theorem valid_record_bounds (H : Host) :
    (∀ (drawn : Nat) (file : File),
        (validateFile H drawn file).result.status = Status.valid →
        (validateFile H drawn file).result.name = file.name
          ∧ (validateFile H drawn file).result.size = file.size
          ∧ (validateFile H drawn file).result.size ≠ 0
          ∧ (validateFile H drawn file).result.language ≠ none
          ∧ getExtension H (validateFile H drawn file).result.name
              ∈ [".py", ".java", ".js", ".cpp"]
          ∧ (validateFile H drawn file).result.lines ≤ 10000
          ∧ ∃ t, file.text = some t
              ∧ (validateFile H drawn file).result.lines = countLines t)
      ∧ (∀ (ops : List Op) (handed : List FileRecord),
        btnScanClick (run H ops State.initial) = some handed →
        handed = validFiles (run H ops State.initial).fileQueue
          ∧ handed ≠ []
          ∧ ∀ r ∈ handed,
            r.status = Status.valid
              ∧ r.name = r.file.name
              ∧ r.size = r.file.size
              ∧ r.size ≠ 0
              ∧ r.language ≠ none
              ∧ getExtension H r.name ∈ [".py", ".java", ".js", ".cpp"]
              ∧ r.lines ≤ 10000
              ∧ ∃ t, r.file.text = some t ∧ r.lines = countLines t) := by
  have hrec : ∀ (drawn : Nat) (file : File),
      (validateFile H drawn file).result.status = Status.valid →
      (validateFile H drawn file).result.name = file.name
        ∧ (validateFile H drawn file).result.size = file.size
        ∧ (validateFile H drawn file).result.size ≠ 0
        ∧ (validateFile H drawn file).result.language ≠ none
        ∧ getExtension H (validateFile H drawn file).result.name
            ∈ [".py", ".java", ".js", ".cpp"]
        ∧ (validateFile H drawn file).result.lines ≤ 10000
        ∧ ∃ t, file.text = some t
            ∧ (validateFile H drawn file).result.lines = countLines t := by
    intro drawn file hvalid
    rw [validateFile_name, validateFile_size]
    rcases validateFile_cases H drawn file with
      ⟨_, hs, _⟩ | ⟨hext, hlang, hrest⟩
    · rw [hs] at hvalid
      exact absurd hvalid (by decide)
    · obtain ⟨l, hl⟩ := detectLanguage_isSome H file.name hext
      rcases hrest with ⟨_, hs, _⟩ | ⟨_, hs, _⟩ | ⟨_, hs, _⟩ | ⟨_, hs, _⟩
        | ⟨hsize, _, _, t, ht, hlines, hmax⟩
      · rw [hs] at hvalid
        exact absurd hvalid (by decide)
      · rw [hs] at hvalid
        exact absurd hvalid (by decide)
      · rw [hs] at hvalid
        exact absurd hvalid (by decide)
      · rw [hs] at hvalid
        exact absurd hvalid (by decide)
      · refine ⟨rfl, rfl, hsize, ?_, hext, ?_, t, ht, hlines⟩
        · rw [hlang, hl]
          simp
        · rw [hlines]
          exact hmax
  refine ⟨hrec, ?_⟩
  intro ops handed hclick
  unfold btnScanClick at hclick
  dsimp only at hclick
  split at hclick
  · exact absurd hclick (by simp)
  · rename_i hlen
    simp only [Option.some.injEq] at hclick
    subst hclick
    refine ⟨rfl, fun e => hlen (by rw [e]; rfl), ?_⟩
    intro r hr
    have hmem := List.mem_filter.1 hr
    have hvalid : r.status = Status.valid := by simpa using hmem.2
    obtain ⟨d, file, rfl⟩ := run_initial_mem H ops r hmem.1
    obtain ⟨h1, h2, h3, h4, h5, h6, h7⟩ := hrec d file hvalid
    rw [validateFile_file]
    exact ⟨hvalid, h1, h2, h3, h4, h5, h6, h7⟩

/-! ## Letter case of the extension -/

theorem lastIndexOfFrom_append (c : Char) (l1 l2 : List Char) (i : Nat) (acc : Int) :
    lastIndexOfFrom c (l1 ++ l2) i acc
      = lastIndexOfFrom c l2 (i + l1.length) (lastIndexOfFrom c l1 i acc) := by
  induction l1 generalizing i acc with
  | nil => simp [lastIndexOfFrom]
  | cons x xs ih =>
    rw [List.cons_append, lastIndexOfFrom, ih, List.length_cons]
    conv_rhs => rw [lastIndexOfFrom]
    congr 1
    omega

theorem lastIndexOf_last_dot (stem suffix : List Char) (h : '.' ∉ suffix) :
    lastIndexOf (String.mk (stem ++ '.' :: suffix)) '.' = (stem.length : Int) := by
  unfold lastIndexOf
  rw [lastIndexOfFrom_append, lastIndexOfFrom, lastIndexOfFrom_of_not_mem _ _ _ _ h]
  simp

theorem getExtension_last_dot (H : Host) (stem suffix : List Char) (h : '.' ∉ suffix) :
    getExtension H (String.mk (stem ++ '.' :: suffix))
      = H.toLowerCase (String.mk ('.' :: suffix)) := by
  unfold getExtension
  rw [lastIndexOf_last_dot stem suffix h]
  have hne : ((stem.length : Int) ≠ -1) := by omega
  simp only [hne, ne_eq, not_false_eq_true, if_true, Int.toNat_ofNat,
    List.drop_left']

theorem validateFile_unsupported_iff (H : Host) (drawn : Nat) (file : File) :
    (validateFile H drawn file).result.statusLabel = "Unsupported"
      ↔ getExtension H file.name ∉ ALLOWED_EXTENSIONS := by
  rcases validateFile_cases H drawn file with
    ⟨hext, _, hl, _⟩ | ⟨hext, _, hrest⟩
  · rw [hl]
    simp [hext]
  · rcases hrest with ⟨_, _, hl, _⟩ | ⟨_, _, hl, _⟩ | ⟨_, _, hl, _⟩ | ⟨_, _, hl, _⟩
      | ⟨_, _, hl, _⟩ <;> rw [hl] <;> simp [hext]

/-- C15: `getExtension` returns the part of the filename from its last `.`,
lower-cased, and `""` when the name has no `.`; for a host whose `toLowerCase`
does not tell apart strings that are equal up to ASCII letter case, and
lower-cases ASCII text letter by letter, two filenames whose parts from the
last `.` are equal up to ASCII letter case get the same extension and the same
accept/reject decision in stage 1, and `MAIN.PY` and `a.b.Js` are accepted like
`main.py` and `a.b.js`. -/
theorem getExtension_case_insensitive (H : Host)
    (hcase : ∀ a b : String, asciiLower a = asciiLower b → H.toLowerCase a = H.toLowerCase b)
    (hascii : ∀ t : String, (∀ c ∈ t.data, c.toNat < 128) → H.toLowerCase t = asciiLower t) :
    (∀ name : String, '.' ∉ name.data → getExtension H name = "")
      ∧ (∀ stem suffix : List Char, '.' ∉ suffix →
        getExtension H (String.mk (stem ++ '.' :: suffix))
          = H.toLowerCase (String.mk ('.' :: suffix)))
      ∧ (∀ stem1 suffix1 stem2 suffix2 : List Char, '.' ∉ suffix1 → '.' ∉ suffix2 →
        asciiLower (String.mk ('.' :: suffix1)) = asciiLower (String.mk ('.' :: suffix2)) →
        getExtension H (String.mk (stem1 ++ '.' :: suffix1))
            = getExtension H (String.mk (stem2 ++ '.' :: suffix2))
          ∧ ∀ (d1 d2 : Nat) (f1 f2 : File),
            f1.name = String.mk (stem1 ++ '.' :: suffix1) →
            f2.name = String.mk (stem2 ++ '.' :: suffix2) →
            ((validateFile H d1 f1).result.statusLabel = "Unsupported"
              ↔ (validateFile H d2 f2).result.statusLabel = "Unsupported"))
      ∧ getExtension H "MAIN.PY" = ".py" ∧ getExtension H "main.py" = ".py"
      ∧ getExtension H "a.b.Js" = ".js" ∧ getExtension H "a.b.js" = ".js"
      ∧ (∀ (drawn : Nat) (file : File),
        file.name = "MAIN.PY" ∨ file.name = "main.py" ∨ file.name = "a.b.Js"
          ∨ file.name = "a.b.js" →
        (validateFile H drawn file).result.statusLabel ≠ "Unsupported") := by
  have hext : ∀ stem1 suffix1 stem2 suffix2 : List Char, '.' ∉ suffix1 → '.' ∉ suffix2 →
      asciiLower (String.mk ('.' :: suffix1)) = asciiLower (String.mk ('.' :: suffix2)) →
      getExtension H (String.mk (stem1 ++ '.' :: suffix1))
        = getExtension H (String.mk (stem2 ++ '.' :: suffix2)) := by
    intro stem1 suffix1 stem2 suffix2 h1 h2 heq
    rw [getExtension_last_dot H stem1 suffix1 h1, getExtension_last_dot H stem2 suffix2 h2]
    exact hcase _ _ heq
  have e1 : getExtension H "MAIN.PY" = ".py" := by
    have h := getExtension_last_dot H "MAIN".data "PY".data (by decide)
    have hl := hascii (String.mk ('.' :: "PY".data)) (by decide)
    rw [hl] at h
    exact h
  have e2 : getExtension H "main.py" = ".py" := by
    have h := getExtension_last_dot H "main".data "py".data (by decide)
    have hl := hascii (String.mk ('.' :: "py".data)) (by decide)
    rw [hl] at h
    exact h
  have e3 : getExtension H "a.b.Js" = ".js" := by
    have h := getExtension_last_dot H "a.b".data "Js".data (by decide)
    have hl := hascii (String.mk ('.' :: "Js".data)) (by decide)
    rw [hl] at h
    exact h
  have e4 : getExtension H "a.b.js" = ".js" := by
    have h := getExtension_last_dot H "a.b".data "js".data (by decide)
    have hl := hascii (String.mk ('.' :: "js".data)) (by decide)
    rw [hl] at h
    exact h
  refine ⟨getExtension_of_no_dot H, getExtension_last_dot H, ?_, e1, e2, e3, e4, ?_⟩
  · intro stem1 suffix1 stem2 suffix2 h1 h2 heq
    refine ⟨hext _ _ _ _ h1 h2 heq, ?_⟩
    intro d1 d2 f1 f2 hn1 hn2
    rw [validateFile_unsupported_iff, validateFile_unsupported_iff, hn1, hn2,
      hext stem1 suffix1 stem2 suffix2 h1 h2 heq]
  · intro drawn file hname
    rw [Ne, validateFile_unsupported_iff, not_not]
    rcases hname with h | h | h | h <;> rw [h]
    · rw [e1]
      decide
    · rw [e2]
      decide
    · rw [e3]
      decide
    · rw [e4]
      decide

/-- With ASCII lower-casing as the host's `toLowerCase`, `MAIN.PY` has extension
`.py` and a file of that name is not rejected as unsupported. -/
theorem getExtension_case_insensitive_witness :
    getExtension Host.ascii "MAIN.PY" = ".py"
      ∧ (validateFile Host.ascii 0 ⟨"MAIN.PY", 2, some [97, 10], some "a\n"⟩).result.statusLabel
          ≠ "Unsupported" :=
  ⟨(getExtension_case_insensitive Host.ascii (fun _ _ h => h) (fun _ _ => rfl)).2.2.2.1,
   (getExtension_case_insensitive Host.ascii (fun _ _ h => h)
      (fun _ _ => rfl)).2.2.2.2.2.2.2 0 _ (Or.inl rfl)⟩

end CodeShield
